import Mathlib

/-!
# Monthly report aggregation of the expense tracker (`src/src/App.jsx`)

A shallow embedding of the `reportData` memo (lines 403-431), of the
"Highest Spend Category" card that consumes it (lines 616-621), of the submit
handler (lines 343-367), of the currency preference logic (lines 230, 270-283,
332-341) and of the header figure of the record view (lines 487-504).

Modelling conventions.

* Amounts are exact rationals (`ℚ`) instead of IEEE doubles. Where rounding matters,
  for the order of ties, the same code is embedded a second time with the operations on
  numbers as parameters (`NumberOps`, namespace `AnyArith`); `chartData_toAny` shows that
  the exact embedding is its instance at exact numbers.
* An expense date is the string `yyyy-MM-dd` already split into its three
  numeric fields; `parseISO` yields no time value (`Invalid Date`) when the
  fields do not name a calendar day with a four-digit year.
* The month selector is the string `YYYY-MM` already split and read by
  `parseInt` into two numbers. The two-argument `Date` constructor reads a
  year from 0 to 99 as 1900 + year and carries a month index outside 0..11
  into the year.
* A JavaScript time value is the number of milliseconds of local time counted
  from local midnight of 0001-01-01 in the proleptic Gregorian calendar; local
  days are taken to have 86 400 000 ms (no daylight-saving shifts).
* The accumulator `{}` of the second `reduce` is an ordinary JavaScript object:
  reads fall through to `Object.prototype`, the key `__proto__` is an accessor
  whose setter ignores primitive values, and `Object.entries` lists
  array-index keys first, in ascending order.
* `Array.prototype.sort` is the stable sort by the comparator, a NaN result
  counting as 0; it is rendered by insertion sort, which gives the order the
  language fixes whenever the comparator is consistent.
* The card's `toFixed(1)` formatting is left out: the model gives the number
  handed to it; `formatMoney` is left out in the same way.
* Component state is passed explicitly: user actions and listener callbacks are
  events, and a state is reachable when a sequence of events leads to it from
  the state of the freshly mounted component.
* A store write is the value handed to `addDoc` or `updateDoc`; the server
  timestamps are left out.
-/

namespace ExpenseTracker

/-! ## Calendar and time values -/

/-- Gregorian leap-year rule used by the JavaScript `Date` object. -/
def isLeapYear (y : Int) : Bool :=
  y % 4 == 0 && (y % 100 != 0 || y % 400 == 0)

/-- Number of days of month `m` (1 = January) in year `y`; 0 for a month number outside 1..12. -/
def daysInMonth (y : Int) (m : Nat) : Nat :=
  match m with
  | 1 => 31
  | 2 => if isLeapYear y then 29 else 28
  | 3 => 31
  | 4 => 30
  | 5 => 31
  | 6 => 30
  | 7 => 31
  | 8 => 31
  | 9 => 30
  | 10 => 31
  | 11 => 30
  | 12 => 31
  | _ => 0

/-- Days of year `y` that precede the first day of month `m`. -/
def daysBeforeMonth (y : Int) (m : Nat) : Nat :=
  match m with
  | 0 => 0
  | k + 1 => daysBeforeMonth y k + daysInMonth y k

/-- Days between 0001-01-01 and the first of January of year `y`. -/
def daysBeforeYear (y : Int) : Int :=
  365 * (y - 1) + (y - 1) / 4 - (y - 1) / 100 + (y - 1) / 400

/-- Day number of the calendar day `y-m-d` (0001-01-01 is day 0). -/
def dayNumber (y : Int) (m d : Nat) : Int :=
  daysBeforeYear y + daysBeforeMonth y m + (d - 1 : Int)

/-- Milliseconds in one local day. -/
def msPerDay : Int := 86400000

/-- A calendar date as carried by the `date` field, the string `yyyy-MM-dd`. -/
structure CalDate where
  year : Nat
  month : Nat
  day : Nat
  deriving DecidableEq, Repr

/-- The date names a day of the calendar with a four-digit year, the form `yyyy-MM-dd`
that `parseISO` reads. -/
def CalDate.valid (d : CalDate) : Prop :=
  d.year ≤ 9999 ∧ 1 ≤ d.month ∧ d.month ≤ 12 ∧ 1 ≤ d.day ∧ d.day ≤ daysInMonth d.year d.month

instance (d : CalDate) : Decidable d.valid := by
  unfold CalDate.valid; infer_instance

/-- The function `parseISO` of date-fns on a date-only string: local midnight of that day,
or no time value when the string does not name a calendar day. -/
def parseISO (d : CalDate) : Option Int :=
  if d.valid then some (dayNumber d.year d.month d.day * msPerDay) else none

/-- The month selector `reportMonth`, the string `YYYY-MM` after `split` and `parseInt`. -/
structure MonthKey where
  year : Nat
  month : Nat
  deriving DecidableEq, Repr

/-- A month key `YYYY-MM` names a month of the calendar: a four-digit year from 0001 on
and a month from 01 to 12. -/
def MonthKey.valid (k : MonthKey) : Prop :=
  1 ≤ k.year ∧ k.year ≤ 9999 ∧ 1 ≤ k.month ∧ k.month ≤ 12

instance (k : MonthKey) : Decidable k.valid := by
  unfold MonthKey.valid; infer_instance

/-- The year the two-argument `Date` constructor uses: a year argument from 0 to 99 is
taken to mean 1900 + year. -/
def makeFullYear (y : Nat) : Int :=
  if y ≤ 99 then 1900 + (y : Int) else (y : Int)

/-- Year and month (1..12) of `new Date(year, monthIndex)`, with month overflow carried
into the year. -/
def newDateYearMonth (year : Nat) (monthIndex : Int) : Int × Nat :=
  (makeFullYear year + monthIndex / 12, (monthIndex % 12).toNat + 1)

/-- Start of the interval: `startOfMonth(new Date(parseInt(year), parseInt(month) - 1))`. -/
def startOfMonth (k : MonthKey) : Int :=
  let ym := newDateYearMonth k.year ((k.month : Int) - 1)
  dayNumber ym.1 ym.2 1 * msPerDay

/-- End of the interval: `endOfMonth(new Date(parseInt(year), parseInt(month) - 1))`,
the last millisecond of the last day of the month. -/
def endOfMonth (k : MonthKey) : Int :=
  let ym := newDateYearMonth k.year ((k.month : Int) - 1)
  dayNumber ym.1 ym.2 (daysInMonth ym.1 ym.2) * msPerDay + (msPerDay - 1)

/-- The function `isWithinInterval` of date-fns: false for an invalid date. -/
def isWithinInterval (t : Option Int) (start stop : Int) : Bool :=
  match t with
  | some v => decide (start ≤ v) && decide (v ≤ stop)
  | none => false

/-! ## Expenses and the month filter -/

/-- An expense document as far as the report reads it. -/
structure Expense where
  category : String
  amount : ℚ
  date : CalDate
  deriving DecidableEq

/-- The predicate of `expenses.filter` (lines 408-410). -/
def inReportMonth (k : MonthKey) (e : Expense) : Bool :=
  isWithinInterval (parseISO e.date) (startOfMonth k) (endOfMonth k)

/-- The list `filtered`. -/
def filtered (expenses : List Expense) (k : MonthKey) : List Expense :=
  expenses.filter (inReportMonth k)

/-- The value `total` (line 412). -/
def total (expenses : List Expense) (k : MonthKey) : ℚ :=
  (filtered expenses k).foldl (fun sum e => sum + e.amount) 0

/-! ## The accumulator object of the second `reduce` -/

/-- A value stored in the accumulator: a number, or the string `base` followed by the
decimal renderings of the numbers of `appended` (string concatenation by `+`). -/
inductive Val where
  | num (q : ℚ)
  | str (base : String) (appended : List ℚ)
  deriving DecidableEq

/-- What a property read `acc[key]` can produce. -/
inductive Lookup where
  | undefined
  | own (v : Val)
  | inheritedFunction (name : String)
  | objectPrototype
  deriving DecidableEq

/-- An ordinary object: its own properties in creation order. -/
abbrev JSObject := List (String × Val)

/-- Data properties of `Object.prototype` (all functions), with the name each function
prints in its source text. -/
def objectPrototypeFunctions : List (String × String) :=
  [("constructor", "Object"), ("__defineGetter__", "__defineGetter__"),
   ("__defineSetter__", "__defineSetter__"), ("hasOwnProperty", "hasOwnProperty"),
   ("__lookupGetter__", "__lookupGetter__"), ("__lookupSetter__", "__lookupSetter__"),
   ("isPrototypeOf", "isPrototypeOf"), ("propertyIsEnumerable", "propertyIsEnumerable"),
   ("toString", "toString"), ("valueOf", "valueOf"), ("toLocaleString", "toLocaleString")]

/-- First pair of an association list with the given key. -/
def assoc {β : Type} (l : List (String × β)) (key : String) : Option β :=
  match l with
  | [] => none
  | (k, v) :: rest => if k = key then some v else assoc rest key

/-- The read `acc[key]`: an own property, else what `Object.prototype` provides. -/
def getProp (acc : JSObject) (key : String) : Lookup :=
  match assoc acc key with
  | some v => Lookup.own v
  | none =>
    if key = "__proto__" then Lookup.objectPrototype
    else match assoc objectPrototypeFunctions key with
      | some name => Lookup.inheritedFunction name
      | none => Lookup.undefined

/-- Replace the value of an existing own property, keeping its position. -/
def updateProp (acc : JSObject) (key : String) (v : Val) : JSObject :=
  match acc with
  | [] => []
  | (k, w) :: rest => if k = key then (k, v) :: rest else (k, w) :: updateProp rest key v

/-- The assignment `acc[key] = v` of a primitive value: the `__proto__` setter ignores it,
an existing own property is overwritten in place, a new one is appended. -/
def setProp (acc : JSObject) (key : String) (v : Val) : JSObject :=
  if key = "__proto__" then acc
  else match assoc acc key with
    | some _ => updateProp acc key v
    | none => acc ++ [(key, v)]

/-- The expression `(x || 0) + amount` for `x = acc[e.category]`. -/
def orZeroPlus (x : Lookup) (amount : ℚ) : Val :=
  match x with
  | Lookup.undefined => Val.num (0 + amount)
  | Lookup.own (Val.num q) => if q = 0 then Val.num (0 + amount) else Val.num (q + amount)
  | Lookup.own (Val.str base appended) => Val.str base (appended ++ [amount])
  | Lookup.inheritedFunction name =>
      Val.str ("function " ++ name ++ "() \x7b [native code] \x7d") [amount]
  | Lookup.objectPrototype => Val.str "[object Object]" [amount]

/-- One step of the second `reduce` (lines 414-417). -/
def accumulate (acc : JSObject) (e : Expense) : JSObject :=
  setProp acc e.category (orZeroPlus (getProp acc e.category) e.amount)

/-- The object `byCategory`. -/
def byCategory (expenses : List Expense) (k : MonthKey) : JSObject :=
  (filtered expenses k).foldl accumulate []

/-! ## `Object.entries` -/

/-- Numeric value of a string of decimal digits. -/
def digitsValue (cs : List Char) : Nat :=
  cs.foldl (fun n c => 10 * n + (c.toNat - 48)) 0

/-- The array index a property key denotes, if it is the canonical decimal string of a
number below 2^32 - 1. -/
def arrayIndex (key : String) : Option Nat :=
  match key.data with
  | [] => none
  | c :: cs =>
    if (c :: cs).all Char.isDigit && (c != '0' || cs.isEmpty)
        && decide (digitsValue (c :: cs) < 4294967295)
    then some (digitsValue (c :: cs)) else none

/-- Index of a key known to be an array index (0 otherwise). -/
def indexOf (p : String × Val) : Nat := (arrayIndex p.1).getD 0

/-- The pairs of `Object.entries(obj)`: array-index keys in ascending numeric order, then
the other keys in creation order. -/
def objectEntries (obj : JSObject) : List (String × Val) :=
  (obj.filter (fun p => (arrayIndex p.1).isSome)).insertionSort (fun a b => indexOf a ≤ indexOf b)
    ++ obj.filter (fun p => !(arrayIndex p.1).isSome)

/-! ## Chart data, dominant category and the report card -/

/-- An entry of the constant `CATEGORIES` (the icon component is not read by the report). -/
structure Category where
  id : String
  label : String
  color : String
  deriving DecidableEq

/-- The constant `CATEGORIES` (lines 88-95). -/
def CATEGORIES : List Category :=
  [⟨"Food", "Grocery/Food", "#FF6B6B"⟩, ⟨"Clothes", "Clothes", "#4ECDC4"⟩,
   ⟨"Travel", "Travel", "#45B7D1"⟩, ⟨"Utilities", "Utilities", "#F7B731"⟩,
   ⟨"Entertainment", "Entertainment", "#A55EEA"⟩, ⟨"Other", "Other", "#95A5A6"⟩]

/-- An element of `chartData`. -/
structure ChartEntry where
  name : String
  value : Val
  color : String
  deriving DecidableEq

/-- The callback of `.map` (lines 419-426): catalog lookup with the fallback
`{ label: catId, color: '#999' }`. -/
def toChartEntry (p : String × Val) : ChartEntry :=
  match CATEGORIES.find? (fun c => c.id == p.1) with
  | some cat => ⟨cat.label, p.2, cat.color⟩
  | none => ⟨p.1, p.2, "#999"⟩

/-- The conversion `ToNumber` on an accumulator value; `none` is NaN. The strings that
arise start with `function` or `[object`, so they never read as a number. -/
def Val.toNumber (v : Val) : Option ℚ :=
  match v with
  | Val.num q => some q
  | Val.str _ _ => none

/-- The comparator `(a, b) => b.value - a.value`; `none` is NaN. -/
def compareFn (a b : ChartEntry) : Option ℚ :=
  match b.value.toNumber, a.value.toNumber with
  | some y, some x => some (y - x)
  | _, _ => none

/-- The comparison `Array.prototype.sort` makes of a comparator result: NaN counts as 0. -/
def sortCompare (a b : ChartEntry) : ℚ := (compareFn a b).getD 0

/-- The entry `a` may stay in front of `b`: the comparator does not ask for `b` first. -/
def keepsOrder (a b : ChartEntry) : Prop := sortCompare a b ≤ 0

instance : DecidableRel keepsOrder := fun a b => by
  unfold keepsOrder; infer_instance

/-- The array `chartData`: entries mapped and put in order by the stable sort. -/
def chartData (expenses : List Expense) (k : MonthKey) : List ChartEntry :=
  ((objectEntries (byCategory expenses k)).map toChartEntry).insertionSort keepsOrder

/-- The value `highestCategory`: `chartData[0]`, or `null` (`none`) for an empty array. -/
def highestCategory (expenses : List Expense) (k : MonthKey) : Option ChartEntry :=
  match chartData expenses k with
  | [] => none
  | first :: _ => some first

/-- The object returned by the memo. -/
structure ReportData where
  total : ℚ
  chartData : List ChartEntry
  highestCategory : Option ChartEntry
  deriving DecidableEq

/-- The memo `reportData` (lines 403-431). -/
def reportData (expenses : List Expense) (k : MonthKey) : ReportData :=
  ⟨total expenses k, chartData expenses k, highestCategory expenses k⟩

/-- A JavaScript number produced by the card: a finite exact value, NaN or an infinity. -/
inductive JSNumber where
  | finite (q : ℚ)
  | nan
  | posInfinity
  | negInfinity
  deriving DecidableEq

/-- The division `x / y` of JavaScript, `x` possibly NaN. -/
def jsDivide (x : Option ℚ) (y : ℚ) : JSNumber :=
  match x with
  | none => JSNumber.nan
  | some a =>
    if y = 0 then
      if a = 0 then JSNumber.nan
      else if 0 < a then JSNumber.posInfinity else JSNumber.negInfinity
    else JSNumber.finite (a / y)

/-- Multiplication of a JavaScript number by the positive constant 100. -/
def timesHundred (x : JSNumber) : JSNumber :=
  match x with
  | JSNumber.finite q => JSNumber.finite (q * 100)
  | other => other

/-- What the "Highest Spend Category" card prints under the name. -/
inductive CardText where
  | noData
  | percentOfTotal (p : JSNumber)
  deriving DecidableEq

/-- The conditional of lines 618-620; `percentOfTotal p` stands for the text
`p.toFixed(1)` followed by `% of total`. -/
def highestSpendText (r : ReportData) : CardText :=
  match r.highestCategory with
  | some h => CardText.percentOfTotal (timesHundred (jsDivide h.value.toNumber r.total))
  | none => CardText.noData

/-! ## Vocabulary of the specification -/

/-- The calendar date lies in the month the key names. -/
def dateInMonth (k : MonthKey) (d : CalDate) : Prop :=
  d.year = k.year ∧ d.month = k.month

instance (k : MonthKey) (d : CalDate) : Decidable (dateInMonth k d) := by
  unfold dateInMonth; infer_instance

/-- Sum of the `value` fields of a breakdown, defined when every value is a number. -/
def breakdownSum (l : List ChartEntry) : Option ℚ :=
  match l with
  | [] => some 0
  | x :: rest =>
    match x.value.toNumber, breakdownSum rest with
    | some v, some s => some (v + s)
    | _, _ => none

/-- Sum of the amounts of the expenses of `l` whose category id is `c`. -/
def categorySum (l : List Expense) (c : String) : ℚ :=
  ((l.filter (fun e => e.category == c)).map (fun e => e.amount)).sum

/-- Property names every `{}` object inherits from `Object.prototype`. -/
def inheritedKeys : List String :=
  "__proto__" :: objectPrototypeFunctions.map (fun p => p.1)

/-- The first entry's value is a number at least as large as the second's, which is a
number too. -/
def valueGE (a b : ChartEntry) : Prop :=
  (match a.value.toNumber, b.value.toNumber with
    | some x, some y => decide (y ≤ x)
    | _, _ => false) = true

instance : DecidableRel valueGE := fun _ _ => by
  unfold valueGE; infer_instance

/-- Some expense of `l` has category id `c`. -/
def hasCategory (l : List Expense) (c : String) : Bool :=
  l.any (fun e => e.category == c)

/-- What the accumulator must hold after the expenses `seen`: one own property per
category id that occurs, holding the exact sum of its amounts. -/
def AccInv (acc : JSObject) (seen : List Expense) : Prop :=
  (acc.map Prod.fst).Nodup ∧
    ∀ c, assoc acc c = if hasCategory seen c then some (Val.num (categorySum seen c)) else none

/-- One for a leap year, zero otherwise. -/
def leapDay (y : Int) : Nat := if isLeapYear y then 1 else 0

/-- Order of two entries by the numbers their values read as (NaN read as 0). -/
def numGE (a b : ChartEntry) : Prop := b.value.toNumber.getD 0 ≤ a.value.toNumber.getD 0

instance : DecidableRel numGE := fun _ _ => by
  unfold numGE; infer_instance

instance : IsTotal ChartEntry numGE := ⟨fun _ _ => le_total _ _⟩

instance : IsTrans ChartEntry numGE := ⟨fun _ _ _ h1 h2 => le_trans h2 h1⟩

/-- The value of the entry is a number. -/
def isNumeric (a : ChartEntry) : Prop := ∃ q, a.value = Val.num q

/-! ## The submit handler -/

/-- The state `amount` of the form: the text of the number input, or the number that
`handleEdit` copies from a stored expense. -/
inductive FormAmount where
  | text (s : String)
  | number (q : ℚ)
  deriving DecidableEq

/-- The form state read by `handleSubmit`. -/
structure FormState where
  title : String
  amount : FormAmount
  category : String
  date : String
  editingId : Option String
  deriving DecidableEq

/-- The object `expenseData` (the server timestamps are left out). -/
structure ExpenseData where
  title : String
  amount : JSNumber
  category : String
  date : String
  deriving DecidableEq

/-- The write `handleSubmit` sends to the expense store. -/
inductive StoreWrite where
  | updateDoc (id : String) (data : ExpenseData)
  | addDoc (data : ExpenseData)
  deriving DecidableEq

/-- Code points that `parseFloat` skips in front of the number. -/
def isWhiteSpace (c : Char) : Bool :=
  [9, 10, 11, 12, 13, 32, 160, 5760, 8192, 8193, 8194, 8195, 8196, 8197, 8198, 8199, 8200,
    8201, 8202, 8232, 8233, 8239, 8287, 12288, 65279].contains c.toNat

/-- An optional sign in front of a numeral: the factor it stands for and the rest. -/
def takeSign (cs : List Char) : Int × List Char :=
  match cs with
  | '-' :: rest => (-1, rest)
  | '+' :: rest => (1, rest)
  | _ => (1, cs)

/-- The exponent part `e` or `E`, optional sign, digits; 0 when there is none. -/
def exponentValue (cs : List Char) : Int :=
  match cs with
  | c :: rest =>
    if c = 'e' ∨ c = 'E' then
      let signed := takeSign rest
      let digits := signed.2.takeWhile Char.isDigit
      if digits.isEmpty then 0 else signed.1 * (digitsValue digits : Int)
    else 0
  | [] => 0

/-- The unsigned decimal literal at the front of the characters, if there is one. -/
def decimalPrefix (cs : List Char) : Option ℚ :=
  let intDigits := cs.takeWhile Char.isDigit
  let afterInt := cs.dropWhile Char.isDigit
  let fracDigits :=
    match afterInt with
    | '.' :: rest => rest.takeWhile Char.isDigit
    | _ => []
  let afterFrac :=
    match afterInt with
    | '.' :: rest => rest.dropWhile Char.isDigit
    | _ => afterInt
  if intDigits.isEmpty && fracDigits.isEmpty then none
  else some (((digitsValue intDigits : ℚ) + (digitsValue fracDigits : ℚ) / 10 ^ fracDigits.length)
    * 10 ^ exponentValue afterFrac)

/-- The function `parseFloat` on a string: the longest numeric prefix, NaN without one. -/
def parseFloatString (s : String) : JSNumber :=
  let signed := takeSign (s.data.dropWhile isWhiteSpace)
  if "Infinity".data.isPrefixOf signed.2 then
    if signed.1 < 0 then JSNumber.negInfinity else JSNumber.posInfinity
  else match decimalPrefix signed.2 with
    | some q => JSNumber.finite (signed.1 * q)
    | none => JSNumber.nan

/-- The test `!amount`. -/
def FormAmount.isFalsy (a : FormAmount) : Bool :=
  match a with
  | FormAmount.text s => decide (s = "")
  | FormAmount.number q => decide (q = 0)

/-- The call `parseFloat(amount)`; a number is printed and read back unchanged. -/
def parseFloat (a : FormAmount) : JSNumber :=
  match a with
  | FormAmount.text s => parseFloatString s
  | FormAmount.number q => JSNumber.finite q

/-- The handler `handleSubmit` (lines 343-367) for a signed-in user: the store write it
issues, or none when it returns at the guard. `today` is `format(new Date(), 'yyyy-MM-dd')`. -/
def handleSubmit (today : String) (f : FormState) : Option StoreWrite :=
  if f.title = "" ∨ f.amount.isFalsy = true then none
  else
    let expenseData : ExpenseData :=
      ⟨f.title, parseFloat f.amount, f.category, if f.date = "" then today else f.date⟩
    match f.editingId with
    | some id => if id = "" then some (StoreWrite.addDoc expenseData)
        else some (StoreWrite.updateDoc id expenseData)
    | none => some (StoreWrite.addDoc expenseData)

/-- The amount a store write carries. -/
def StoreWrite.amount (w : StoreWrite) : JSNumber :=
  match w with
  | StoreWrite.updateDoc _ data => data.amount
  | StoreWrite.addDoc data => data.amount

/-- The number is finite and greater than zero. -/
def JSNumber.isPositive (x : JSNumber) : Bool :=
  match x with
  | JSNumber.finite q => decide (0 < q)
  | JSNumber.posInfinity => true
  | _ => false

/-! ## The currency preference -/

/-- An entry of the constant `CURRENCIES`. -/
structure Currency where
  code : String
  symbol : String
  label : String
  decimals : Nat
  deriving DecidableEq

/-- The constant `CURRENCIES` (lines 83-86). -/
def CURRENCIES : List Currency :=
  [⟨"USD", "$", "$", 2⟩, ⟨"INR", "₹", "₹", 0⟩]

/-- The first enumerated currency of the specification: USD, shown with 2 decimals. -/
def defaultCurrency : Currency := ⟨"USD", "$", "$", 2⟩

/-- The document `settings/preferences` of a user: its `currency` field, if it has one. -/
structure Preferences where
  currency : Option String
  deriving DecidableEq

/-- The preference store: the preferences document of each user id that has one. -/
abbrev PreferenceStore := List (String × Preferences)

/-- The part of the component state and of the remote store that the currency logic reads
and writes. `currency = none` is the value `undefined`. -/
structure CurrencyState where
  user : Option String
  currency : Option Currency
  prefs : PreferenceStore
  deriving DecidableEq

/-- The events of the claim. -/
inductive CurrencyEvent where
  | signIn (uid : String)
  | snapshot
  | currencyChange (code : String)
  | signOut
  deriving DecidableEq

/-- State of a freshly mounted component over a given remote store:
`useState(null)` and `useState(CURRENCIES[0])`. -/
def CurrencyState.init (prefs : PreferenceStore) : CurrencyState :=
  ⟨none, CURRENCIES.head?, prefs⟩

/-- The lookup `CURRENCIES.find(c => c.code === code)`. -/
def findCurrency (code : String) : Option Currency :=
  CURRENCIES.find? (fun c => c.code == code)

/-- The callback of `onSnapshot` on the preferences document (lines 273-281): the state
`currency` after it ran on the document `doc` (`none` if the document does not exist). -/
def onPreferencesSnapshot (currency : Option Currency) (doc : Option Preferences) :
    Option Currency :=
  match doc with
  | none => currency
  | some data =>
    match data.currency with
    | none => currency
    | some code =>
      if code = "" then currency
      else match findCurrency code with
        | some savedCurrency => some savedCurrency
        | none => currency

/-- The write `setDoc(ref, { currency: newCode }, { merge: true })` for user `uid`. -/
def setDocMerge (prefs : PreferenceStore) (uid : String) (newCode : String) : PreferenceStore :=
  match prefs with
  | [] => [(uid, ⟨some newCode⟩)]
  | (u, doc) :: rest =>
    if u = uid then (u, ⟨some newCode⟩) :: rest else (u, doc) :: setDocMerge rest uid newCode

/-- One event: `onAuthStateChanged` with a user or with `null`, a delivery of the signed-in
user's preferences document to the listener, or `handleCurrencyChange` (lines 332-341),
which sets the state and writes the document only `if (user)`. -/
def CurrencyState.step (s : CurrencyState) (ev : CurrencyEvent) : CurrencyState :=
  match ev with
  | CurrencyEvent.signIn uid => { s with user := some uid }
  | CurrencyEvent.signOut => { s with user := none }
  | CurrencyEvent.snapshot =>
    match s.user with
    | none => s
    | some uid => { s with currency := onPreferencesSnapshot s.currency (assoc s.prefs uid) }
  | CurrencyEvent.currencyChange code =>
    match s.user with
    | none => { s with currency := findCurrency code }
    | some uid => { s with currency := findCurrency code, prefs := setDocMerge s.prefs uid code }

/-- The state after a sequence of events. -/
def CurrencyState.run (s : CurrencyState) (events : List CurrencyEvent) : CurrencyState :=
  events.foldl CurrencyState.step s

/-- The stored preference of a user as the specification reads it: the enumerated currency
the document names, or none when the preference is unset (no document, no `currency`
field, or a code outside the enumeration). -/
def storedCurrency (prefs : PreferenceStore) (uid : String) : Option Currency :=
  match assoc prefs uid with
  | none => none
  | some data =>
    match data.currency with
    | none => none
    | some code => findCurrency code

/-- The signed-in user's stored preference is unset. -/
def preferenceUnset (s : CurrencyState) : Prop :=
  ∃ uid, s.user = some uid ∧ storedCurrency s.prefs uid = none

/-- The event is not a currency change. -/
def CurrencyEvent.keepsSelection (ev : CurrencyEvent) : Bool :=
  match ev with
  | CurrencyEvent.currencyChange _ => false
  | _ => true

/-! ## Views and the header -/

/-- The state `view`. -/
inductive View where
  | record
  | report
  deriving DecidableEq

/-- The part of the component state the header reads. -/
structure ViewState where
  expenses : List Expense
  view : View
  reportMonth : MonthKey
  deriving DecidableEq

/-- User and store events that change that state. -/
inductive ViewEvent where
  | setView (v : View)
  | setReportMonth (k : MonthKey)
  | handleEdit
  | expensesSnapshot (data : List Expense)
  deriving DecidableEq

/-- State of a freshly mounted component; `currentMonth` is `format(new Date(), 'yyyy-MM')`. -/
def ViewState.init (currentMonth : MonthKey) : ViewState :=
  ⟨[], View.record, currentMonth⟩

/-- One event. The month input exists only in the report view, so `setReportMonth` has no
effect in the record view. -/
def ViewState.step (s : ViewState) (ev : ViewEvent) : ViewState :=
  match ev with
  | ViewEvent.setView v => { s with view := v }
  | ViewEvent.setReportMonth k =>
    match s.view with
    | View.report => { s with reportMonth := k }
    | View.record => s
  | ViewEvent.handleEdit => { s with view := View.record }
  | ViewEvent.expensesSnapshot data => { s with expenses := data }

/-- The state after a sequence of events. -/
def ViewState.run (s : ViewState) (events : List ViewEvent) : ViewState :=
  events.foldl ViewState.step s

/-- The figure under "Total Spent This Month" (lines 487-493): `reportData.total`, shown
in the record view only. -/
def headerTotal (s : ViewState) : Option ℚ :=
  match s.view with
  | View.record => some (reportData s.expenses s.reportMonth).total
  | View.report => none

/-- Sum of the amounts of the expenses dated in the month `k`. -/
def monthSum (expenses : List Expense) (k : MonthKey) : ℚ :=
  ((expenses.filter (fun e => decide (dateInMonth k e.date))).map (fun e => e.amount)).sum

/-- The event does not pick a report month. -/
def ViewEvent.keepsMonth (ev : ViewEvent) : Bool :=
  match ev with
  | ViewEvent.setReportMonth _ => false
  | _ => true

/-! ## The report with the arithmetic of numbers left open

The same code once more, over a type `N` of numbers whose operations are parameters: `add`
is the `+` of JavaScript numbers, `sub` its `-`, `isFalsy` the test `!x` and `sign` what
`Array.prototype.sort` reads from a comparator result. What is proved for every
`NumberOps` holds for IEEE doubles, where sums are rounded, as well as for exact numbers. -/

/-- The operations on numbers that the report uses. -/
structure NumberOps (N : Type) where
  /-- The literal `0`. -/
  zero : N
  /-- The sum `x + y` of two numbers. -/
  add : N → N → N
  /-- The difference `x - y` of two numbers. -/
  sub : N → N → N
  /-- The test `!x`: true for 0, -0 and NaN. -/
  isFalsy : N → Bool
  /-- What the sort reads from a comparator result: negative, positive, or 0 (also for NaN). -/
  sign : N → Int

namespace AnyArith

/-- An expense document with an amount of type `N`. -/
structure Expense (N : Type) where
  category : String
  amount : N
  date : CalDate
  deriving DecidableEq

/-- The predicate of `expenses.filter` (lines 408-410). -/
def inReportMonth {N : Type} (k : MonthKey) (e : Expense N) : Bool :=
  isWithinInterval (parseISO e.date) (startOfMonth k) (endOfMonth k)

/-- The list `filtered`. -/
def filtered {N : Type} (expenses : List (Expense N)) (k : MonthKey) : List (Expense N) :=
  expenses.filter (inReportMonth k)

/-- A value stored in the accumulator: a number, or the string `base` followed by the
renderings of the numbers of `appended`. -/
inductive Val (N : Type) where
  | num (x : N)
  | str (base : String) (appended : List N)
  deriving DecidableEq

/-- What a property read `acc[key]` can produce. -/
inductive Lookup (N : Type) where
  | undefined
  | own (v : Val N)
  | inheritedFunction (name : String)
  | objectPrototype
  deriving DecidableEq

/-- The read `acc[key]`: an own property, else what `Object.prototype` provides. -/
def getProp {N : Type} (acc : List (String × Val N)) (key : String) : Lookup N :=
  match assoc acc key with
  | some v => Lookup.own v
  | none =>
    if key = "__proto__" then Lookup.objectPrototype
    else match assoc objectPrototypeFunctions key with
      | some name => Lookup.inheritedFunction name
      | none => Lookup.undefined

/-- Replace the value of an existing own property, keeping its position. -/
def updateProp {N : Type} (acc : List (String × Val N)) (key : String) (v : Val N) :
    List (String × Val N) :=
  match acc with
  | [] => []
  | (k, w) :: rest => if k = key then (k, v) :: rest else (k, w) :: updateProp rest key v

/-- The assignment `acc[key] = v` of a primitive value: the `__proto__` setter ignores it,
an existing own property is overwritten in place, a new one is appended. -/
def setProp {N : Type} (acc : List (String × Val N)) (key : String) (v : Val N) :
    List (String × Val N) :=
  if key = "__proto__" then acc
  else match assoc acc key with
    | some _ => updateProp acc key v
    | none => acc ++ [(key, v)]

/-- The expression `(x || 0) + amount` for `x = acc[e.category]`. -/
def orZeroPlus {N : Type} (ops : NumberOps N) (x : Lookup N) (amount : N) : Val N :=
  match x with
  | Lookup.undefined => Val.num (ops.add ops.zero amount)
  | Lookup.own (Val.num y) =>
      if ops.isFalsy y then Val.num (ops.add ops.zero amount) else Val.num (ops.add y amount)
  | Lookup.own (Val.str base appended) => Val.str base (appended ++ [amount])
  | Lookup.inheritedFunction name =>
      Val.str ("function " ++ name ++ "() \x7b [native code] \x7d") [amount]
  | Lookup.objectPrototype => Val.str "[object Object]" [amount]

/-- One step of the second `reduce` (lines 414-417). -/
def accumulate {N : Type} (ops : NumberOps N) (acc : List (String × Val N)) (e : Expense N) :
    List (String × Val N) :=
  setProp acc e.category (orZeroPlus ops (getProp acc e.category) e.amount)

/-- The object `byCategory`. -/
def byCategory {N : Type} (ops : NumberOps N) (expenses : List (Expense N)) (k : MonthKey) :
    List (String × Val N) :=
  (filtered expenses k).foldl (accumulate ops) []

/-- The pairs of `Object.entries(obj)`: array-index keys in ascending numeric order, then
the other keys in creation order. -/
def objectEntries {N : Type} (obj : List (String × Val N)) : List (String × Val N) :=
  (obj.filter (fun p => (arrayIndex p.1).isSome)).insertionSort
      (fun a b => (arrayIndex a.1).getD 0 ≤ (arrayIndex b.1).getD 0)
    ++ obj.filter (fun p => !(arrayIndex p.1).isSome)

/-- An element of `chartData`. -/
structure ChartEntry (N : Type) where
  name : String
  value : Val N
  color : String
  deriving DecidableEq

/-- The callback of `.map` (lines 419-426): catalog lookup with the fallback
`{ label: catId, color: '#999' }`. -/
def toChartEntry {N : Type} (p : String × Val N) : ChartEntry N :=
  match CATEGORIES.find? (fun c => c.id == p.1) with
  | some cat => ⟨cat.label, p.2, cat.color⟩
  | none => ⟨p.1, p.2, "#999"⟩

/-- What the sort reads from the comparator `(a, b) => b.value - a.value`: the sign of the
difference of two numbers, and 0 when a value is a string (the difference is NaN). -/
def sortCompare {N : Type} (ops : NumberOps N) (a b : ChartEntry N) : Int :=
  match b.value, a.value with
  | Val.num y, Val.num x => ops.sign (ops.sub y x)
  | _, _ => 0

/-- The entry `a` may stay in front of `b`: the comparator does not ask for `b` first. -/
def keepsOrder {N : Type} (ops : NumberOps N) (a b : ChartEntry N) : Prop :=
  sortCompare ops a b ≤ 0

instance {N : Type} (ops : NumberOps N) : DecidableRel (keepsOrder ops) := fun _ _ => by
  unfold keepsOrder; infer_instance

/-- The array handed to `.sort`: the entries of `byCategory`, mapped. -/
def mappedEntries {N : Type} (ops : NumberOps N) (expenses : List (Expense N)) (k : MonthKey) :
    List (ChartEntry N) :=
  (objectEntries (byCategory ops expenses k)).map toChartEntry

/-- The array `chartData`: entries mapped and put in order by the stable sort. -/
def chartData {N : Type} (ops : NumberOps N) (expenses : List (Expense N)) (k : MonthKey) :
    List (ChartEntry N) :=
  (mappedEntries ops expenses k).insertionSort (keepsOrder ops)

/-- The comparator is a consistent comparison function for the entries of `l`: reversing
the arguments reverses the sign, and "not after" is transitive. -/
def consistentOn {N : Type} (ops : NumberOps N) (l : List (ChartEntry N)) : Prop :=
  (∀ a ∈ l, ∀ b ∈ l, sortCompare ops a b = - sortCompare ops b a) ∧
    ∀ a ∈ l, ∀ b ∈ l, ∀ c ∈ l,
      sortCompare ops a b ≤ 0 → sortCompare ops b c ≤ 0 → sortCompare ops a c ≤ 0

instance {N : Type} (ops : NumberOps N) (l : List (ChartEntry N)) :
    Decidable (consistentOn ops l) := by
  unfold consistentOn; infer_instance

end AnyArith

/-- The operations on exact rational numbers. On integers of moderate size they agree with
the operations on IEEE doubles. -/
def exactOps : NumberOps ℚ where
  zero := 0
  add := fun x y => x + y
  sub := fun x y => x - y
  isFalsy := fun x => decide (x = 0)
  sign := fun x => if x < 0 then -1 else if 0 < x then 1 else 0

/-- An expense with an exact amount, read as an expense of the open arithmetic. -/
def Expense.toAny (e : Expense) : AnyArith.Expense ℚ := ⟨e.category, e.amount, e.date⟩

/-- An accumulator value of the exact embedding, read in the open arithmetic. -/
def Val.toAny (v : Val) : AnyArith.Val ℚ :=
  match v with
  | Val.num q => AnyArith.Val.num q
  | Val.str base appended => AnyArith.Val.str base appended

/-- A property of the accumulator, read in the open arithmetic. -/
def pairToAny (p : String × Val) : String × AnyArith.Val ℚ := (p.1, p.2.toAny)

/-- A chart entry of the exact embedding, read in the open arithmetic. -/
def ChartEntry.toAny (x : ChartEntry) : AnyArith.ChartEntry ℚ :=
  ⟨x.name, x.value.toAny, x.color⟩

/-! ## Association lists -/

theorem assoc_eq_none_iff {β : Type} (l : List (String × β)) (key : String) :
    assoc l key = none ↔ key ∉ l.map Prod.fst := by
  induction l with
  | nil => simp [assoc]
  | cons p rest ih =>
    obtain ⟨k, v⟩ := p
    by_cases h : k = key
    · simp [assoc, h]
    · have h2 : ¬ key = k := fun h2 => h h2.symm
      simp [assoc, h, ih, h2]

theorem assoc_append_single {β : Type} (l : List (String × β)) (k key : String) (v : β) :
    assoc (l ++ [(k, v)]) key
      = match assoc l key with
        | some w => some w
        | none => if k = key then some v else none := by
  induction l with
  | nil => simp [assoc]
  | cons p rest ih =>
    obtain ⟨k1, v1⟩ := p
    by_cases h : k1 = key
    · simp [assoc, h]
    · simp [assoc, h, ih]

theorem map_fst_updateProp (acc : JSObject) (key : String) (v : Val) :
    (updateProp acc key v).map Prod.fst = acc.map Prod.fst := by
  induction acc with
  | nil => simp [updateProp]
  | cons p rest ih =>
    obtain ⟨k1, v1⟩ := p
    by_cases h : k1 = key
    · simp [updateProp, h]
    · simp [updateProp, h, ih]

theorem assoc_updateProp (acc : JSObject) (key c : String) (v : Val) :
    assoc (updateProp acc key v) c
      = if c = key then (assoc acc key).map (fun _ => v) else assoc acc c := by
  induction acc with
  | nil => simp [updateProp, assoc]
  | cons p rest ih =>
    obtain ⟨k1, v1⟩ := p
    by_cases h : k1 = key
    · by_cases hc : c = key
      · simp [updateProp, assoc, h, hc]
      · have : ¬ key = c := fun h2 => hc h2.symm
        simp [updateProp, assoc, h, hc, this]
    · by_cases hc : c = key
      · subst hc
        simp [updateProp, assoc, h, ih]
      · by_cases h1 : k1 = c
        · simp [updateProp, assoc, h, hc, h1]
        · simp [updateProp, assoc, h, hc, h1, ih]

theorem assoc_eq_some_of_mem {β : Type} (l : List (String × β)) (key : String) (v : β)
    (nd : (l.map Prod.fst).Nodup) (h : (key, v) ∈ l) : assoc l key = some v := by
  induction l with
  | nil => simp at h
  | cons p rest ih =>
    obtain ⟨k1, v1⟩ := p
    simp only [List.map_cons, List.nodup_cons] at nd
    rcases List.mem_cons.1 h with h1 | h1
    · cases h1
      simp [assoc]
    · have hne : k1 ≠ key := by
        intro h2
        subst h2
        exact nd.1 (List.mem_map_of_mem Prod.fst h1)
      simp [assoc, hne, ih nd.2 h1]

/-! ## The accumulator holds one exact sum per category -/

theorem categorySum_append_single (l : List Expense) (e : Expense) (c : String) :
    categorySum (l ++ [e]) c = categorySum l c + (if e.category = c then e.amount else 0) := by
  unfold categorySum
  by_cases h : e.category = c
  · simp [List.filter_append, List.filter_cons, h]
  · simp [List.filter_append, List.filter_cons, h]

theorem hasCategory_append_single (l : List Expense) (e : Expense) (c : String) :
    hasCategory (l ++ [e]) c = (hasCategory l c || decide (e.category = c)) := by
  by_cases h : e.category = c <;> simp [hasCategory, h]

theorem categorySum_eq_zero (l : List Expense) (c : String) (h : hasCategory l c = false) :
    categorySum l c = 0 := by
  unfold categorySum
  have : l.filter (fun e => e.category == c) = [] := by
    rw [List.filter_eq_nil_iff]
    intro e he hc
    have : hasCategory l c = true := by
      unfold hasCategory
      exact List.any_eq_true.2 ⟨e, he, hc⟩
    simp [h] at this
  simp [this]

theorem getProp_of_fresh (acc : JSObject) (key : String) (h : assoc acc key = none)
    (hk : key ∉ inheritedKeys) : getProp acc key = Lookup.undefined := by
  have h1 : key ≠ "__proto__" := by
    intro h2
    exact hk (by simp [inheritedKeys, h2])
  have h2 : assoc objectPrototypeFunctions key = none := by
    rw [assoc_eq_none_iff]
    intro h3
    exact hk (List.mem_cons_of_mem _ h3)
  simp [getProp, h, h1, h2]

theorem accInv_accumulate (acc : JSObject) (seen : List Expense) (e : Expense)
    (inv : AccInv acc seen) (hk : e.category ∉ inheritedKeys) :
    AccInv (accumulate acc e) (seen ++ [e]) := by
  obtain ⟨nd, hv⟩ := inv
  have hproto : e.category ≠ "__proto__" := by
    intro h2
    exact hk (by simp [inheritedKeys, h2])
  cases hs : hasCategory seen e.category with
  | false =>
    have hnone : assoc acc e.category = none := by simpa [hs] using hv e.category
    have hacc : accumulate acc e = acc ++ [(e.category, Val.num (0 + e.amount))] := by
      simp [accumulate, getProp_of_fresh acc e.category hnone hk, orZeroPlus, setProp, hproto,
        hnone]
    rw [hacc]
    refine ⟨?_, ?_⟩
    · have hnot := (assoc_eq_none_iff acc e.category).1 hnone
      rw [List.map_append, List.nodup_append]
      refine ⟨nd, by simp, ?_⟩
      intro a ha hb
      simp at hb
      subst hb
      exact hnot ha
    · intro c
      rw [assoc_append_single, hv c, hasCategory_append_single, categorySum_append_single]
      by_cases hc : e.category = c
      · subst hc
        simp [hs, categorySum_eq_zero seen e.category hs]
      · cases hsc : hasCategory seen c <;> simp [hc]
  | true =>
    have hsome : assoc acc e.category = some (Val.num (categorySum seen e.category)) := by
      simpa [hs] using hv e.category
    have hacc : accumulate acc e
        = updateProp acc e.category (Val.num (categorySum seen e.category + e.amount)) := by
      by_cases hz : categorySum seen e.category = 0
      · simp [accumulate, getProp, hsome, orZeroPlus, setProp, hproto, hz]
      · simp [accumulate, getProp, hsome, orZeroPlus, setProp, hproto, hz]
    rw [hacc]
    refine ⟨by rw [map_fst_updateProp]; exact nd, ?_⟩
    intro c
    rw [assoc_updateProp, hasCategory_append_single, categorySum_append_single]
    by_cases hc : c = e.category
    · subst hc
      simp [hsome, hs]
    · have hc2 : ¬ e.category = c := fun h2 => hc h2.symm
      simp [hc, hc2, hv c]

theorem accInv_foldl (l : List Expense) :
    ∀ (acc : JSObject) (seen : List Expense), AccInv acc seen →
      (∀ e ∈ l, e.category ∉ inheritedKeys) → AccInv (l.foldl accumulate acc) (seen ++ l) := by
  induction l with
  | nil => intro acc seen inv _; simpa using inv
  | cons e rest ih =>
    intro acc seen inv hk
    have h1 := accInv_accumulate acc seen e inv (hk e (List.mem_cons_self _ _))
    have h2 := ih (accumulate acc e) (seen ++ [e]) h1
      (fun x hx => hk x (List.mem_cons_of_mem _ hx))
    simpa using h2

theorem accInv_byCategory (expenses : List Expense) (k : MonthKey)
    (hk : ∀ e ∈ filtered expenses k, e.category ∉ inheritedKeys) :
    AccInv (byCategory expenses k) (filtered expenses k) := by
  have h := accInv_foldl (filtered expenses k) [] [] ⟨by simp, by intro c; simp [assoc, hasCategory]⟩ hk
  simpa [byCategory] using h

/-! ## From the accumulator to the chart -/

theorem objectEntries_perm (obj : JSObject) : (objectEntries obj).Perm obj := by
  unfold objectEntries
  refine List.Perm.trans (List.Perm.append_right _ (List.perm_insertionSort _ _)) ?_
  exact List.filter_append_perm (fun p => (arrayIndex p.1).isSome) obj

theorem chartData_perm (expenses : List Expense) (k : MonthKey) :
    (chartData expenses k).Perm ((byCategory expenses k).map toChartEntry) := by
  unfold chartData
  exact List.Perm.trans (List.perm_insertionSort _ _) (List.Perm.map _ (objectEntries_perm _))

theorem byCategory_eq_map (expenses : List Expense) (k : MonthKey)
    (hk : ∀ e ∈ filtered expenses k, e.category ∉ inheritedKeys) :
    byCategory expenses k
      = ((byCategory expenses k).map Prod.fst).map
          (fun c => (c, Val.num (categorySum (filtered expenses k) c))) := by
  obtain ⟨nd, hv⟩ := accInv_byCategory expenses k hk
  rw [List.map_map]
  conv_lhs => rw [← List.map_id (byCategory expenses k)]
  apply List.map_congr_left
  intro p hp
  obtain ⟨c, v⟩ := p
  have h1 := assoc_eq_some_of_mem _ c v nd hp
  rw [hv c] at h1
  cases hs : hasCategory (filtered expenses k) c with
  | false => simp [hs] at h1
  | true =>
    simp [hs] at h1
    simp [h1]

theorem mem_keys_byCategory (expenses : List Expense) (k : MonthKey)
    (hk : ∀ e ∈ filtered expenses k, e.category ∉ inheritedKeys) (c : String) :
    c ∈ (byCategory expenses k).map Prod.fst ↔ ∃ e ∈ filtered expenses k, e.category = c := by
  obtain ⟨_, hv⟩ := accInv_byCategory expenses k hk
  have h1 := assoc_eq_none_iff (byCategory expenses k) c
  rw [hv c] at h1
  cases hs : hasCategory (filtered expenses k) c with
  | false =>
    simp [hs] at h1
    have h2 : ¬ ∃ e ∈ filtered expenses k, e.category = c := by
      rintro ⟨e, he, hc⟩
      have : hasCategory (filtered expenses k) c = true :=
        List.any_eq_true.2 ⟨e, he, by simp [hc]⟩
      simp [hs] at this
    constructor
    · intro h3
      obtain ⟨p, hp, hpc⟩ := List.mem_map.1 h3
      obtain ⟨c1, v⟩ := p
      simp at hpc
      subst hpc
      exact absurd hp (h1 v)
    · intro h3
      exact absurd h3 h2
  | true =>
    simp [hs] at h1
    obtain ⟨e, he, hc⟩ := List.any_eq_true.1 (show (filtered expenses k).any _ = true from hs)
    constructor
    · intro _
      exact ⟨e, he, by simpa using hc⟩
    · intro _
      obtain ⟨v, hv2⟩ := h1
      exact List.mem_map.2 ⟨(c, v), hv2, rfl⟩

/-! ## The month interval -/

theorem daysBeforeYear_succ (y : Int) :
    daysBeforeYear (y + 1) = daysBeforeYear y + 365 + (leapDay y : Int) := by
  unfold daysBeforeYear leapDay isLeapYear
  by_cases h4 : y % 4 = 0 <;> by_cases h100 : y % 100 = 0 <;> by_cases h400 : y % 400 = 0 <;>
    simp [h4, h100, h400] <;> omega

theorem daysBeforeYear_mono (y z : Int) (h : y ≤ z) : daysBeforeYear y ≤ daysBeforeYear z := by
  unfold daysBeforeYear
  omega

theorem daysBeforeMonth_add_le (y : Int) (m d : Nat) (hm1 : 1 ≤ m) (hm2 : m ≤ 12)
    (hd : d ≤ daysInMonth y m) : daysBeforeMonth y m + d ≤ 365 + leapDay y := by
  unfold leapDay
  interval_cases m <;> cases h : isLeapYear y <;>
    simp [daysBeforeMonth, daysInMonth, h] at hd ⊢ <;> omega

theorem daysBeforeMonth_step (y : Int) (m n d : Nat) (hm1 : 1 ≤ m) (hmn : m < n) (hn : n ≤ 12)
    (hd : d ≤ daysInMonth y m) : daysBeforeMonth y m + d ≤ daysBeforeMonth y n := by
  interval_cases n <;> interval_cases m <;> cases h : isLeapYear y <;>
    simp [daysBeforeMonth, daysInMonth, h] at hd ⊢ <;> omega

theorem dayNumber_lt_of_year_lt (y z : Int) (m n d : Nat) (hm1 : 1 ≤ m) (hm2 : m ≤ 12)
    (hd : d ≤ daysInMonth y m) (h : y < z) : dayNumber y m d < dayNumber z n 1 := by
  have h1 := daysBeforeMonth_add_le y m d hm1 hm2 hd
  have h2 := daysBeforeYear_succ y
  have h3 := daysBeforeYear_mono (y + 1) z (by omega)
  unfold dayNumber
  omega

theorem dayNumber_lt_of_month_lt (y : Int) (m n d : Nat) (hm1 : 1 ≤ m) (hmn : m < n)
    (hn : n ≤ 12) (hd : d ≤ daysInMonth y m) : dayNumber y m d < dayNumber y n 1 := by
  have h1 := daysBeforeMonth_step y m n d hm1 hmn hn hd
  unfold dayNumber
  omega

/-- A day lies between the first and the last day of a month exactly when it is a day of
that month. -/
theorem dayNumber_between_iff (y z : Int) (m n d : Nat) (hm1 : 1 ≤ m) (hm2 : m ≤ 12)
    (hd1 : 1 ≤ d) (hd2 : d ≤ daysInMonth y m) (hn1 : 1 ≤ n) (hn2 : n ≤ 12) :
    (dayNumber z n 1 ≤ dayNumber y m d ∧ dayNumber y m d ≤ dayNumber z n (daysInMonth z n))
      ↔ (y = z ∧ m = n) := by
  constructor
  · rintro ⟨h1, h2⟩
    rcases lt_trichotomy y z with hy | hy | hy
    · have := dayNumber_lt_of_year_lt y z m n d hm1 hm2 hd2 hy
      omega
    · subst hy
      rcases lt_trichotomy m n with hmn | hmn | hmn
      · have := dayNumber_lt_of_month_lt y m n d hm1 hmn hn2 hd2
        omega
      · exact ⟨rfl, hmn⟩
      · have := dayNumber_lt_of_month_lt y n m (daysInMonth y n) hn1 hmn hm2 le_rfl
        unfold dayNumber at *
        omega
    · have := dayNumber_lt_of_year_lt z y n m (daysInMonth z n) hn1 hn2 le_rfl hy
      unfold dayNumber at *
      omega
  · rintro ⟨rfl, rfl⟩
    unfold dayNumber
    omega

theorem newDateYearMonth_of_valid (year month : Nat) (h1 : 1 ≤ month) (h2 : month ≤ 12) :
    newDateYearMonth year ((month : Int) - 1) = (makeFullYear year, month) := by
  unfold newDateYearMonth
  have ha : ((month : Int) - 1) / 12 = 0 := by omega
  have hb : (((month : Int) - 1) % 12).toNat + 1 = month := by omega
  rw [ha, hb]
  simp

/-- The filter keeps an expense exactly when its date is a day of the month the `Date`
constructor builds from the key. -/
theorem inReportMonth_iff_fullYear (k : MonthKey) (e : Expense) (hm1 : 1 ≤ k.month)
    (hm2 : k.month ≤ 12) (hd : e.date.valid) :
    inReportMonth k e = true
      ↔ ((e.date.year : Int) = makeFullYear k.year ∧ e.date.month = k.month) := by
  obtain ⟨_, d1, d2, d3, d4⟩ := hd
  have hv : e.date.valid := ⟨by assumption, d1, d2, d3, d4⟩
  have key := dayNumber_between_iff (e.date.year : Int) (makeFullYear k.year) e.date.month
    k.month e.date.day d1 d2 d3 d4 hm1 hm2
  rw [← key]
  simp only [inReportMonth, parseISO, hv, if_true, isWithinInterval, startOfMonth, endOfMonth,
    newDateYearMonth_of_valid k.year k.month hm1 hm2, Bool.and_eq_true, decide_eq_true_eq,
    msPerDay]
  constructor <;> rintro ⟨h1, h2⟩ <;> constructor <;> omega

theorem inReportMonth_iff (k : MonthKey) (e : Expense) (hk : k.valid) (hy : 100 ≤ k.year)
    (hd : e.date.valid) : inReportMonth k e = true ↔ dateInMonth k e.date := by
  obtain ⟨_, _, hm1, hm2⟩ := hk
  rw [inReportMonth_iff_fullYear k e hm1 hm2 hd]
  have : makeFullYear k.year = (k.year : Int) := by
    unfold makeFullYear
    split <;> omega
  rw [this]
  unfold dateInMonth
  constructor <;> rintro ⟨h1, h2⟩ <;> exact ⟨by omega, h2⟩

/-! ## Sums -/

theorem foldl_add_amount (l : List Expense) (a : ℚ) :
    l.foldl (fun sum e => sum + e.amount) a = a + (l.map (fun e => e.amount)).sum := by
  induction l generalizing a with
  | nil => simp
  | cons e rest ih => simp [ih, add_assoc]

theorem total_eq_sum (expenses : List Expense) (k : MonthKey) :
    total expenses k = ((filtered expenses k).map (fun e => e.amount)).sum := by
  simp [total, foldl_add_amount]

theorem breakdownSum_map_num (ids : List String) (f : String → ℚ) :
    breakdownSum (ids.map (fun c => toChartEntry (c, Val.num (f c)))) = some (ids.map f).sum := by
  induction ids with
  | nil => simp [breakdownSum]
  | cons c rest ih =>
    have hv : (toChartEntry (c, Val.num (f c))).value = Val.num (f c) := by
      unfold toChartEntry
      split <;> rfl
    simp [breakdownSum, ih, hv, Val.toNumber]

theorem breakdownSum_perm {l₁ l₂ : List ChartEntry} (h : l₁.Perm l₂) :
    breakdownSum l₁ = breakdownSum l₂ := by
  induction h with
  | nil => rfl
  | cons x _ ih => simp [breakdownSum, ih]
  | swap x y l =>
    simp only [breakdownSum]
    cases x.value.toNumber <;> cases y.value.toNumber <;> cases breakdownSum l <;> simp
    ring
  | trans _ _ ih1 ih2 => exact ih1.trans ih2

theorem sum_categorySum (ids : List String) (nd : ids.Nodup) (l : List Expense)
    (hall : ∀ e ∈ l, e.category ∈ ids) :
    (ids.map (categorySum l)).sum = (l.map (fun e => e.amount)).sum := by
  induction l with
  | nil =>
    have : ids.map (categorySum []) = ids.map (fun _ => (0 : ℚ)) :=
      List.map_congr_left (fun c _ => by simp [categorySum])
    rw [this]
    simp
  | cons e rest ih =>
    have hrest := ih (fun x hx => hall x (List.mem_cons_of_mem _ hx))
    have hstep : ∀ c, categorySum (e :: rest) c
        = (if e.category = c then e.amount else 0) + categorySum rest c := by
      intro c
      unfold categorySum
      by_cases h : e.category = c <;> simp [List.filter_cons, h]
    have hone : (ids.map (fun c => if e.category = c then e.amount else 0)).sum = e.amount := by
      have hmem := hall e (List.mem_cons_self _ _)
      clear hrest hstep ih hall
      induction ids with
      | nil => simp at hmem
      | cons c cs ihc =>
        simp only [List.nodup_cons] at nd
        by_cases h : e.category = c
        · have hz : (cs.map (fun c => if e.category = c then e.amount else 0)).sum = 0 := by
            apply List.sum_eq_zero
            intro x hx
            obtain ⟨c2, hc2, rfl⟩ := List.mem_map.1 hx
            have : e.category ≠ c2 := by
              intro h3
              exact nd.1 (by rw [← h, h3]; exact hc2)
            simp [this]
          rw [List.map_cons, List.sum_cons, hz]
          simp [h]
        · have hm : e.category ∈ cs := by
            rcases List.mem_cons.1 hmem with h2 | h2
            · exact absurd h2 h
            · exact h2
          simp [h, ihc nd.2 hm]
    have : ids.map (categorySum (e :: rest))
        = ids.map (fun c => (if e.category = c then e.amount else 0) + categorySum rest c) := by
      apply List.map_congr_left
      intro c _
      exact hstep c
    rw [this, List.sum_map_add, hone, hrest]
    simp

/-! ## The sort -/

theorem keepsOrder_iff_numGE (a b : ChartEntry) (ha : isNumeric a) (hb : isNumeric b) :
    keepsOrder a b ↔ numGE a b := by
  obtain ⟨x, hx⟩ := ha
  obtain ⟨y, hy⟩ := hb
  simp [keepsOrder, sortCompare, compareFn, numGE, hx, hy, Val.toNumber]

theorem valueGE_iff_numGE (a b : ChartEntry) (ha : isNumeric a) (hb : isNumeric b) :
    valueGE a b ↔ numGE a b := by
  obtain ⟨x, hx⟩ := ha
  obtain ⟨y, hy⟩ := hb
  simp [valueGE, numGE, hx, hy, Val.toNumber]

theorem orderedInsert_congr {r s : ChartEntry → ChartEntry → Prop} [DecidableRel r]
    [DecidableRel s] (a : ChartEntry) (l : List ChartEntry) (h : ∀ b ∈ l, r a b ↔ s a b) :
    l.orderedInsert r a = l.orderedInsert s a := by
  induction l with
  | nil => rfl
  | cons b rest ih =>
    have hb := h b (List.mem_cons_self _ _)
    have hrest := ih (fun x hx => h x (List.mem_cons_of_mem _ hx))
    by_cases hr : r a b
    · simp [List.orderedInsert, hr, hb.1 hr]
    · have hs : ¬ s a b := fun h2 => hr (hb.2 h2)
      simp [List.orderedInsert, hr, hs, hrest]

theorem insertionSort_congr {r s : ChartEntry → ChartEntry → Prop} [DecidableRel r]
    [DecidableRel s] (l : List ChartEntry) (h : ∀ a ∈ l, ∀ b ∈ l, r a b ↔ s a b) :
    l.insertionSort r = l.insertionSort s := by
  induction l with
  | nil => rfl
  | cons a rest ih =>
    have hrest := ih (fun x hx y hy =>
      h x (List.mem_cons_of_mem _ hx) y (List.mem_cons_of_mem _ hy))
    simp only [List.insertionSort]
    rw [hrest]
    apply orderedInsert_congr
    intro b hb
    have hb2 : b ∈ rest := (List.mem_insertionSort s).1 hb
    exact h a (List.mem_cons_self _ _) b (List.mem_cons_of_mem _ hb2)

theorem sorted_of_numeric (l : List ChartEntry) (h : ∀ a ∈ l, isNumeric a) :
    (l.insertionSort keepsOrder).Sorted numGE := by
  rw [insertionSort_congr l (fun a ha b hb => keepsOrder_iff_numGE a b (h a ha) (h b hb))]
  exact List.sorted_insertionSort numGE l

theorem isNumeric_toChartEntry (c : String) (q : ℚ) : isNumeric (toChartEntry (c, Val.num q)) := by
  unfold toChartEntry isNumeric
  split <;> exact ⟨q, rfl⟩

theorem chartData_numeric (expenses : List Expense) (k : MonthKey)
    (hk : ∀ e ∈ filtered expenses k, e.category ∉ inheritedKeys) :
    ∀ a ∈ chartData expenses k, isNumeric a := by
  intro a ha
  have h1 := (chartData_perm expenses k).mem_iff.1 ha
  rw [byCategory_eq_map expenses k hk, List.map_map] at h1
  obtain ⟨c, _, rfl⟩ := List.mem_map.1 h1
  exact isNumeric_toChartEntry c _

theorem chartData_sorted_numGE (expenses : List Expense) (k : MonthKey)
    (hk : ∀ e ∈ filtered expenses k, e.category ∉ inheritedKeys) :
    (chartData expenses k).Sorted numGE := by
  unfold chartData
  apply sorted_of_numeric
  intro a ha
  have h1 : a ∈ chartData expenses k := by
    unfold chartData
    exact (List.mem_insertionSort _).2 ha
  exact chartData_numeric expenses k hk a h1

/-! ## Results on the report -/

/-- The breakdown holds one entry per category id that has an included expense, with the
exact sum of that category, whenever no included category id is a property name inherited
from `Object.prototype`. -/
theorem chartData_perm_categories (expenses : List Expense) (k : MonthKey)
    (hk : ∀ e ∈ filtered expenses k, e.category ∉ inheritedKeys) :
    ∃ ids : List String, ids.Nodup ∧
      (∀ c, c ∈ ids ↔ ∃ e ∈ filtered expenses k, e.category = c) ∧
      (chartData expenses k).Perm
        (ids.map (fun c => toChartEntry (c, Val.num (categorySum (filtered expenses k) c)))) := by
  refine ⟨(byCategory expenses k).map Prod.fst, (accInv_byCategory expenses k hk).1,
    mem_keys_byCategory expenses k hk, ?_⟩
  have h := chartData_perm expenses k
  rw [byCategory_eq_map expenses k hk, List.map_map] at h
  exact h

/-- The total equals the sum of the breakdown values whenever no included category id is a
property name inherited from `Object.prototype`. -/
theorem total_eq_breakdownSum (expenses : List Expense) (k : MonthKey)
    (hk : ∀ e ∈ filtered expenses k, e.category ∉ inheritedKeys) :
    breakdownSum (reportData expenses k).chartData = some (reportData expenses k).total := by
  obtain ⟨ids, nd, hmem, hperm⟩ := chartData_perm_categories expenses k hk
  show breakdownSum (chartData expenses k) = some (total expenses k)
  rw [breakdownSum_perm hperm, breakdownSum_map_num, total_eq_sum,
    sum_categorySum ids nd (filtered expenses k) (fun e he => (hmem e.category).2 ⟨e, he, rfl⟩)]

theorem total_eq_breakdownSum_witness :
    breakdownSum (reportData [⟨"Food", 50, ⟨2024, 3, 5⟩⟩, ⟨"7", 30, ⟨2024, 3, 20⟩⟩,
        ⟨"Food", 20, ⟨2024, 2, 28⟩⟩] ⟨2024, 3⟩).chartData
      = some (reportData [⟨"Food", 50, ⟨2024, 3, 5⟩⟩, ⟨"7", 30, ⟨2024, 3, 20⟩⟩,
        ⟨"Food", 20, ⟨2024, 2, 28⟩⟩] ⟨2024, 3⟩).total :=
  total_eq_breakdownSum _ _ (by decide)

theorem filtered_eq_nil_of_none_in_month (expenses : List Expense) (k : MonthKey)
    (hk : k.valid) (hy : 100 ≤ k.year) (hnone : ∀ e ∈ expenses, ¬ dateInMonth k e.date) :
    filtered expenses k = [] := by
  unfold filtered
  rw [List.filter_eq_nil_iff]
  intro e he hin
  by_cases hv : e.date.valid
  · exact hnone e he ((inReportMonth_iff k e hk hy hv).1 hin)
  · simp [inReportMonth, parseISO, hv, isWithinInterval] at hin

theorem reportData_of_filtered_nil (expenses : List Expense) (k : MonthKey)
    (h : filtered expenses k = []) : reportData expenses k = ⟨0, [], none⟩ := by
  have hc : chartData expenses k = [] := by
    simp [chartData, byCategory, h, objectEntries]
  simp [reportData, total, highestCategory, hc, h]

/-- With a month key whose year is at least 100, a list without any expense dated in the
month yields total 0, an empty breakdown and no dominant category. -/
theorem reportData_of_none_in_month (expenses : List Expense) (k : MonthKey)
    (hk : k.valid) (hy : 100 ≤ k.year) (hnone : ∀ e ∈ expenses, ¬ dateInMonth k e.date) :
    reportData expenses k = ⟨0, [], none⟩ :=
  reportData_of_filtered_nil expenses k (filtered_eq_nil_of_none_in_month expenses k hk hy hnone)

theorem reportData_of_none_in_month_witness :
    reportData [⟨"Food", 20, ⟨2024, 2, 28⟩⟩] ⟨2024, 3⟩ = ⟨0, [], none⟩ :=
  reportData_of_none_in_month _ _ (by decide) (by decide) (by decide)

/-- With a month key whose year is at least 100, the filter keeps exactly the expenses
whose calendar date is a day of that month. -/
theorem mem_filtered_iff (expenses : List Expense) (k : MonthKey) (e : Expense)
    (hk : k.valid) (hy : 100 ≤ k.year) (hd : e.date.valid) :
    e ∈ filtered expenses k ↔ e ∈ expenses ∧ dateInMonth k e.date := by
  unfold filtered
  rw [List.mem_filter, inReportMonth_iff k e hk hy hd]

theorem mem_filtered_iff_witness :
    (⟨"Food", 1, ⟨2024, 2, 29⟩⟩ : Expense) ∈
        filtered [⟨"Food", 1, ⟨2024, 2, 29⟩⟩, ⟨"Food", 2, ⟨2024, 3, 1⟩⟩] ⟨2024, 2⟩
      ↔ (⟨"Food", 1, ⟨2024, 2, 29⟩⟩ : Expense) ∈
          [⟨"Food", 1, ⟨2024, 2, 29⟩⟩, (⟨"Food", 2, ⟨2024, 3, 1⟩⟩ : Expense)]
        ∧ dateInMonth ⟨2024, 2⟩ ⟨2024, 2, 29⟩ :=
  mem_filtered_iff _ _ _ (by decide) (by decide) (by decide)

/-- The breakdown is in descending order of value whenever no included category id is a
property name inherited from `Object.prototype`. -/
theorem chartData_sorted_desc (expenses : List Expense) (k : MonthKey)
    (hk : ∀ e ∈ filtered expenses k, e.category ∉ inheritedKeys) :
    (chartData expenses k).Chain'
      (fun a b => valueGE a b ∧ (a.value ≠ b.value → ¬ valueGE b a)) := by
  have hs := chartData_sorted_numGE expenses k hk
  have hn := chartData_numeric expenses k hk
  apply List.Pairwise.chain'
  refine List.Pairwise.imp_of_mem ?_ hs
  intro a b ha hb hab
  obtain ⟨x, hx⟩ := hn a ha
  obtain ⟨y, hy⟩ := hn b hb
  simp only [numGE, valueGE, hx, hy, Val.toNumber, Option.getD_some, decide_eq_true_eq] at hab ⊢
  refine ⟨hab, ?_⟩
  intro hne hba
  exact hne (by rw [le_antisymm hba hab])

theorem chartData_sorted_desc_witness :
    (chartData [⟨"Food", 5, ⟨2024, 3, 5⟩⟩, ⟨"Travel", 30, ⟨2024, 3, 20⟩⟩] ⟨2024, 3⟩).Chain'
      (fun a b => valueGE a b ∧ (a.value ≠ b.value → ¬ valueGE b a)) :=
  chartData_sorted_desc _ _ (by decide)

/-- The dominant category is absent exactly for an empty breakdown; otherwise it is the
first entry, and its value is at least every entry's value whenever no included category
id is a property name inherited from `Object.prototype`. -/
theorem highestCategory_dominates (expenses : List Expense) (k : MonthKey)
    (hk : ∀ e ∈ filtered expenses k, e.category ∉ inheritedKeys) :
    (highestCategory expenses k = none ↔ chartData expenses k = []) ∧
      ∀ h, highestCategory expenses k = some h →
        (chartData expenses k).head? = some h ∧ ∀ x ∈ chartData expenses k, valueGE h x := by
  have hs := chartData_sorted_numGE expenses k hk
  have hn := chartData_numeric expenses k hk
  unfold highestCategory
  cases hc : chartData expenses k with
  | nil => simp
  | cons first rest =>
    rw [hc] at hs hn
    simp only [reduceCtorEq, false_iff, not_false_eq_true, true_and, Option.some.injEq,
      List.head?_cons]
    intro h hh
    subst hh
    refine ⟨rfl, ?_⟩
    intro x hx
    rw [valueGE_iff_numGE first x (hn first (List.mem_cons_self _ _)) (hn x hx)]
    rcases List.mem_cons.1 hx with h1 | h1
    · subst h1
      exact le_refl _
    · exact List.rel_of_sorted_cons hs x h1

theorem highestCategory_dominates_witness :
    (highestCategory [⟨"Food", 5, ⟨2024, 3, 5⟩⟩, ⟨"Travel", 30, ⟨2024, 3, 20⟩⟩] ⟨2024, 3⟩ = none
        ↔ chartData [⟨"Food", 5, ⟨2024, 3, 5⟩⟩, ⟨"Travel", 30, ⟨2024, 3, 20⟩⟩] ⟨2024, 3⟩ = []) ∧
      ∀ h, highestCategory [⟨"Food", 5, ⟨2024, 3, 5⟩⟩, ⟨"Travel", 30, ⟨2024, 3, 20⟩⟩] ⟨2024, 3⟩
          = some h →
        (chartData [⟨"Food", 5, ⟨2024, 3, 5⟩⟩, ⟨"Travel", 30, ⟨2024, 3, 20⟩⟩] ⟨2024, 3⟩).head?
            = some h ∧
          ∀ x ∈ chartData [⟨"Food", 5, ⟨2024, 3, 5⟩⟩, ⟨"Travel", 30, ⟨2024, 3, 20⟩⟩] ⟨2024, 3⟩,
            valueGE h x :=
  highestCategory_dominates _ _ (by decide)

theorem toChartEntry_of_unknown (c : String) (v : Val) (hc : ∀ cat ∈ CATEGORIES, cat.id ≠ c) :
    toChartEntry (c, v) = ⟨c, v, "#999"⟩ := by
  have h : CATEGORIES.find? (fun cat => cat.id == c) = none := by
    rw [List.find?_eq_none]
    intro cat hcat
    simpa using hc cat hcat
  simp [toChartEntry, h]

/-- An included expense whose category id is neither in the catalog nor a property name
inherited from `Object.prototype` is counted: the breakdown has the entry named by the id,
with colour `#999` and the exact sum of the included amounts of that id. -/
theorem unknown_category_entry (expenses : List Expense) (k : MonthKey) (c : String)
    (hk : ∀ e ∈ filtered expenses k, e.category ∉ inheritedKeys)
    (hc : ∀ cat ∈ CATEGORIES, cat.id ≠ c) (hin : ∃ e ∈ filtered expenses k, e.category = c) :
    (⟨c, Val.num (categorySum (filtered expenses k) c), "#999"⟩ : ChartEntry)
      ∈ chartData expenses k := by
  obtain ⟨ids, _, hmem, hperm⟩ := chartData_perm_categories expenses k hk
  rw [hperm.mem_iff, ← toChartEntry_of_unknown c _ hc]
  exact List.mem_map.2 ⟨c, (hmem c).2 hin, rfl⟩

theorem unknown_category_entry_witness :
    (⟨"Pets", Val.num (categorySum (filtered [⟨"Pets", 4, ⟨2024, 3, 9⟩⟩,
        ⟨"Pets", 6, ⟨2024, 3, 10⟩⟩] ⟨2024, 3⟩) "Pets"), "#999"⟩ : ChartEntry)
      ∈ chartData [⟨"Pets", 4, ⟨2024, 3, 9⟩⟩, ⟨"Pets", 6, ⟨2024, 3, 10⟩⟩] ⟨2024, 3⟩ :=
  unknown_category_entry _ _ "Pets" (by decide) (by decide) (by decide)

theorem name_toChartEntry (c : String) (v : Val) :
    (toChartEntry (c, v)).name = if c = "Food" then "Grocery/Food" else c := by
  by_cases h1 : c = "Food"
  · subst h1; rfl
  by_cases h2 : c = "Clothes"
  · subst h2; rfl
  by_cases h3 : c = "Travel"
  · subst h3; rfl
  by_cases h4 : c = "Utilities"
  · subst h4; rfl
  by_cases h5 : c = "Entertainment"
  · subst h5; rfl
  by_cases h6 : c = "Other"
  · subst h6; rfl
  have hc : ∀ cat ∈ CATEGORIES, cat.id ≠ c := by
    intro cat hcat hid
    simp [CATEGORIES] at hcat
    rcases hcat with r | r | r | r | r | r <;> subst r <;> simp at hid <;> simp_all
  rw [toChartEntry_of_unknown c v hc]
  simp [h1]

/-- The names of the breakdown are pairwise distinct whenever no included category id is
`Grocery/Food` or a property name inherited from `Object.prototype`. -/
theorem chartData_names_nodup (expenses : List Expense) (k : MonthKey)
    (hk : ∀ e ∈ filtered expenses k, e.category ∉ inheritedKeys)
    (hl : ∀ e ∈ filtered expenses k, e.category ≠ "Grocery/Food") :
    ((chartData expenses k).map (fun x => x.name)).Nodup := by
  obtain ⟨ids, nd, hmem, hperm⟩ := chartData_perm_categories expenses k hk
  rw [(hperm.map (fun x => x.name)).nodup_iff, List.map_map]
  apply List.Nodup.map_on _ nd
  intro c1 h1 c2 h2 heq
  simp only [Function.comp, name_toChartEntry] at heq
  obtain ⟨e1, he1, hc1⟩ := (hmem c1).1 h1
  obtain ⟨e2, he2, hc2⟩ := (hmem c2).1 h2
  have n1 : c1 ≠ "Grocery/Food" := hc1 ▸ hl e1 he1
  have n2 : c2 ≠ "Grocery/Food" := hc2 ▸ hl e2 he2
  by_cases f1 : c1 = "Food" <;> by_cases f2 : c2 = "Food" <;> simp [f1, f2] at heq
  · rw [f1, f2]
  · exact absurd heq.symm n2
  · exact absurd heq n1
  · exact heq

theorem chartData_names_nodup_witness :
    ((chartData [⟨"Food", 1, ⟨2024, 3, 5⟩⟩, ⟨"Pets", 2, ⟨2024, 3, 5⟩⟩] ⟨2024, 3⟩).map
      (fun x => x.name)).Nodup :=
  chartData_names_nodup _ _ (by decide) (by decide)

/-- With a non-zero total the card prints the dominant value divided by the total, times
100. -/
theorem highestSpendText_of_total_ne_zero (r : ReportData) (h : ChartEntry) (v : ℚ)
    (ht : r.total ≠ 0) (hh : r.highestCategory = some h) (hv : h.value = Val.num v) :
    highestSpendText r = CardText.percentOfTotal (JSNumber.finite (v / r.total * 100)) := by
  simp [highestSpendText, hh, hv, Val.toNumber, jsDivide, ht, timesHundred]

theorem highestSpendText_of_total_ne_zero_witness :
    highestSpendText ⟨100, [⟨"Grocery/Food", Val.num 60, "#FF6B6B"⟩,
        ⟨"Travel", Val.num 40, "#45B7D1"⟩], some ⟨"Grocery/Food", Val.num 60, "#FF6B6B"⟩⟩
      = CardText.percentOfTotal (JSNumber.finite (60 / 100 * 100)) :=
  highestSpendText_of_total_ne_zero _ ⟨"Grocery/Food", Val.num 60, "#FF6B6B"⟩ 60
    (by norm_num) rfl rfl

/-- The card reads "No data" exactly when the breakdown is empty. -/
theorem highestSpendText_noData_iff (expenses : List Expense) (k : MonthKey) :
    highestSpendText (reportData expenses k) = CardText.noData ↔ chartData expenses k = [] := by
  unfold highestSpendText reportData highestCategory
  cases chartData expenses k <;> simp

/-- With a month key whose year is at least 100, the first and the last day of the month are
kept by the filter, and a calendar day whose day number is one less than the first day's or
one more than the last day's is dropped. -/
theorem month_boundaries (k : MonthKey) (e : Expense) (hk : k.valid) (hy : 100 ≤ k.year)
    (hd : e.date.valid) :
    (e.date = ⟨k.year, k.month, 1⟩ → inReportMonth k e = true) ∧
      (e.date = ⟨k.year, k.month, daysInMonth k.year k.month⟩ → inReportMonth k e = true) ∧
      (dayNumber e.date.year e.date.month e.date.day + 1 = dayNumber k.year k.month 1 →
        inReportMonth k e = false) ∧
      (dayNumber e.date.year e.date.month e.date.day
          = dayNumber k.year k.month (daysInMonth k.year k.month) + 1 →
        inReportMonth k e = false) := by
  have hiff := inReportMonth_iff k e hk hy hd
  obtain ⟨_, d1, d2, d3, d4⟩ := hd
  obtain ⟨_, _, hm1, hm2⟩ := hk
  have key := dayNumber_between_iff (e.date.year : Int) (k.year : Int) e.date.month
    k.month e.date.day d1 d2 d3 d4 hm1 hm2
  refine ⟨?_, ?_, ?_, ?_⟩
  · intro h
    rw [hiff, h]
    exact ⟨rfl, rfl⟩
  · intro h
    rw [hiff, h]
    exact ⟨rfl, rfl⟩
  · intro h
    rw [Bool.eq_false_iff, Ne, hiff]
    rintro ⟨h1, h2⟩
    have h3 := (key.2 ⟨by omega, h2⟩).1
    omega
  · intro h
    rw [Bool.eq_false_iff, Ne, hiff]
    rintro ⟨h1, h2⟩
    have h3 := (key.2 ⟨by omega, h2⟩).2
    omega

theorem month_boundaries_witness :
    ((⟨"Food", 1, ⟨2024, 2, 29⟩⟩ : Expense).date = ⟨2024, 2, 1⟩ →
        inReportMonth ⟨2024, 2⟩ ⟨"Food", 1, ⟨2024, 2, 29⟩⟩ = true) ∧
      ((⟨"Food", 1, ⟨2024, 2, 29⟩⟩ : Expense).date = ⟨2024, 2, daysInMonth 2024 2⟩ →
        inReportMonth ⟨2024, 2⟩ ⟨"Food", 1, ⟨2024, 2, 29⟩⟩ = true) ∧
      (dayNumber 2024 2 29 + 1 = dayNumber 2024 2 1 →
        inReportMonth ⟨2024, 2⟩ ⟨"Food", 1, ⟨2024, 2, 29⟩⟩ = false) ∧
      (dayNumber 2024 2 29 = dayNumber 2024 2 (daysInMonth 2024 2) + 1 →
        inReportMonth ⟨2024, 2⟩ ⟨"Food", 1, ⟨2024, 2, 29⟩⟩ = false) :=
  month_boundaries ⟨2024, 2⟩ ⟨"Food", 1, ⟨2024, 2, 29⟩⟩ (by decide) (by decide) (by decide)

/-! ## The claims of the specification on the code -/

/-- C1: the total and the sum of the breakdown values differ when an included expense has
the category id `__proto__`: for one such expense of amount 5 the total is 5, the
breakdown is empty and its values sum to 0. -/
theorem total_differs_from_breakdown_sum_on_proto_key :
    (reportData [⟨"__proto__", 5, ⟨2024, 3, 5⟩⟩] ⟨2024, 3⟩).total = 5 ∧
      (reportData [⟨"__proto__", 5, ⟨2024, 3, 5⟩⟩] ⟨2024, 3⟩).chartData = [] ∧
      breakdownSum (reportData [⟨"__proto__", 5, ⟨2024, 3, 5⟩⟩] ⟨2024, 3⟩).chartData
        = some 0 := by
  decide!

/-- C2: for the valid month key 0050-03 the filter drops the expense dated 0050-03-01, the
first day of that month, and keeps the expense dated 1950-03-01, which is not in it. -/
theorem month_filter_misses_two_digit_year :
    MonthKey.valid ⟨50, 3⟩ ∧
      CalDate.valid ⟨50, 3, 1⟩ ∧ dateInMonth ⟨50, 3⟩ ⟨50, 3, 1⟩ ∧
      inReportMonth ⟨50, 3⟩ ⟨"Food", 1, ⟨50, 3, 1⟩⟩ = false ∧
      CalDate.valid ⟨1950, 3, 1⟩ ∧ ¬ dateInMonth ⟨50, 3⟩ ⟨1950, 3, 1⟩ ∧
      inReportMonth ⟨50, 3⟩ ⟨"Food", 1, ⟨1950, 3, 1⟩⟩ = true := by
  decide!

/-- C3 (as stated): the breakdown of a month whose only included expense is a Food expense
of amount 0 has an entry of value 0, an entry for a category whose accumulated sum is zero. -/
theorem zero_sum_category_has_entry :
    ¬ ∀ x ∈ chartData [⟨"Food", 0, ⟨2024, 3, 5⟩⟩] ⟨2024, 3⟩, x.value ≠ Val.num 0 := by
  decide!

/-- C3 (amended): when no included category id is a property name inherited from
`Object.prototype`, the breakdown is, up to order, one entry per category id that has at
least one included expense (a zero sum included), each carrying the exact sum of the
amounts of the included expenses of that id; an id without included expense has no entry. -/
theorem breakdown_one_entry_per_included_category (expenses : List Expense) (k : MonthKey)
    (hk : ∀ e ∈ filtered expenses k, e.category ∉ inheritedKeys) :
    ∃ ids : List String, ids.Nodup ∧
      (∀ c, c ∈ ids ↔ ∃ e ∈ filtered expenses k, e.category = c) ∧
      (chartData expenses k).Perm
        (ids.map (fun c => toChartEntry (c, Val.num (categorySum (filtered expenses k) c)))) :=
  chartData_perm_categories expenses k hk

theorem breakdown_one_entry_per_included_category_witness :
    (∀ e ∈ filtered [⟨"Food", 0, ⟨2024, 3, 5⟩⟩, ⟨"Pets", 4, ⟨2024, 3, 9⟩⟩] ⟨2024, 3⟩,
        e.category ∉ inheritedKeys) ∧
      ∃ ids : List String, ids.Nodup ∧
        (∀ c, c ∈ ids ↔
          ∃ e ∈ filtered [⟨"Food", 0, ⟨2024, 3, 5⟩⟩, ⟨"Pets", 4, ⟨2024, 3, 9⟩⟩] ⟨2024, 3⟩,
            e.category = c) ∧
        (chartData [⟨"Food", 0, ⟨2024, 3, 5⟩⟩, ⟨"Pets", 4, ⟨2024, 3, 9⟩⟩] ⟨2024, 3⟩).Perm
          (ids.map (fun c => toChartEntry (c, Val.num (categorySum
            (filtered [⟨"Food", 0, ⟨2024, 3, 5⟩⟩, ⟨"Pets", 4, ⟨2024, 3, 9⟩⟩] ⟨2024, 3⟩) c)))) :=
  ⟨by decide, breakdown_one_entry_per_included_category _ _ (by decide)⟩

/-- C4: with an included expense of category id `constructor` the breakdown holds a string
value, and the entry in front of it (Food, 3) is not greater than or equal to it. -/
theorem breakdown_not_descending_on_constructor_key :
    chartData [⟨"Food", 3, ⟨2024, 3, 5⟩⟩, ⟨"constructor", 5, ⟨2024, 3, 5⟩⟩] ⟨2024, 3⟩
        = [⟨"Grocery/Food", Val.num 3, "#FF6B6B"⟩,
           ⟨"constructor", Val.str "function Object() \x7b [native code] \x7d" [5], "#999"⟩] ∧
      ¬ (chartData [⟨"Food", 3, ⟨2024, 3, 5⟩⟩, ⟨"constructor", 5, ⟨2024, 3, 5⟩⟩]
          ⟨2024, 3⟩).Chain' valueGE := by
  have h : chartData [⟨"Food", 3, ⟨2024, 3, 5⟩⟩, ⟨"constructor", 5, ⟨2024, 3, 5⟩⟩] ⟨2024, 3⟩
      = [⟨"Grocery/Food", Val.num 3, "#FF6B6B"⟩,
         ⟨"constructor", Val.str "function Object() \x7b [native code] \x7d" [5], "#999"⟩] := by
    decide!
  refine ⟨h, ?_⟩
  rw [h]
  simp [valueGE, Val.toNumber]

/-- C5: the included category ids `Food` and `Grocery/Food` give two breakdown entries of
the same name `Grocery/Food`. -/
theorem breakdown_names_collide :
    (chartData [⟨"Food", 1, ⟨2024, 3, 5⟩⟩, ⟨"Grocery/Food", 2, ⟨2024, 3, 5⟩⟩] ⟨2024, 3⟩).map
        (fun x => x.name) = ["Grocery/Food", "Grocery/Food"] ∧
      ¬ ((chartData [⟨"Food", 1, ⟨2024, 3, 5⟩⟩, ⟨"Grocery/Food", 2, ⟨2024, 3, 5⟩⟩]
          ⟨2024, 3⟩).map (fun x => x.name)).Nodup := by
  decide!

/-- C6: for the valid month key 0050-03 and a list whose only expense is dated 1950-03-10,
so that no expense is dated in the selected month, the report has total 5, one breakdown
entry and a dominant category. -/
theorem report_not_empty_for_two_digit_year :
    MonthKey.valid ⟨50, 3⟩ ∧
      (∀ e ∈ [(⟨"Food", 5, ⟨1950, 3, 10⟩⟩ : Expense)], ¬ dateInMonth ⟨50, 3⟩ e.date) ∧
      reportData [⟨"Food", 5, ⟨1950, 3, 10⟩⟩] ⟨50, 3⟩
        = ⟨5, [⟨"Grocery/Food", Val.num 5, "#FF6B6B"⟩],
            some ⟨"Grocery/Food", Val.num 5, "#FF6B6B"⟩⟩ := by
  decide!

/-- C7: with included expenses of category ids `constructor` (5) and `Food` (3) the
dominant category is the `constructor` entry, whose value is a string and not greater than
or equal to the value 3 of the Food entry. -/
theorem dominant_not_largest_on_constructor_key :
    highestCategory [⟨"constructor", 5, ⟨2024, 3, 5⟩⟩, ⟨"Food", 3, ⟨2024, 3, 5⟩⟩] ⟨2024, 3⟩
        = some ⟨"constructor", Val.str "function Object() \x7b [native code] \x7d" [5], "#999"⟩ ∧
      ¬ ∀ h, highestCategory [⟨"constructor", 5, ⟨2024, 3, 5⟩⟩, ⟨"Food", 3, ⟨2024, 3, 5⟩⟩]
            ⟨2024, 3⟩ = some h →
          ∀ x ∈ chartData [⟨"constructor", 5, ⟨2024, 3, 5⟩⟩, ⟨"Food", 3, ⟨2024, 3, 5⟩⟩]
            ⟨2024, 3⟩, valueGE h x := by
  refine ⟨by decide!, ?_⟩
  intro h
  have h1 := h _ (by decide! :
    highestCategory [⟨"constructor", 5, ⟨2024, 3, 5⟩⟩, ⟨"Food", 3, ⟨2024, 3, 5⟩⟩] ⟨2024, 3⟩
      = some ⟨"constructor", Val.str "function Object() \x7b [native code] \x7d" [5], "#999"⟩)
    ⟨"Grocery/Food", Val.num 3, "#FF6B6B"⟩ (by decide!)
  exact absurd h1 (by decide!)

/-- C8: the card divides by a zero total. For one included Food expense of amount 0 the
total is 0 and the card prints NaN; for amounts 5 and -5 in two categories the total is 0
and the card prints Infinity. The card reads "No data" only for an empty breakdown. -/
theorem card_divides_by_zero_total :
    (reportData [⟨"Food", 0, ⟨2024, 3, 5⟩⟩] ⟨2024, 3⟩).total = 0 ∧
      highestSpendText (reportData [⟨"Food", 0, ⟨2024, 3, 5⟩⟩] ⟨2024, 3⟩)
        = CardText.percentOfTotal JSNumber.nan ∧
      (reportData [⟨"Food", 5, ⟨2024, 3, 5⟩⟩, ⟨"Travel", -5, ⟨2024, 3, 6⟩⟩] ⟨2024, 3⟩).total = 0 ∧
      highestSpendText
          (reportData [⟨"Food", 5, ⟨2024, 3, 5⟩⟩, ⟨"Travel", -5, ⟨2024, 3, 6⟩⟩] ⟨2024, 3⟩)
        = CardText.percentOfTotal JSNumber.posInfinity := by
  decide!

/-- C9: an included expense of category id `__proto__` leaves no entry in the breakdown,
and one of category id `constructor` leaves an entry whose value is a string instead of
the sum 5 of its amounts. -/
theorem inherited_key_category_not_counted :
    filtered [⟨"__proto__", 5, ⟨2024, 3, 5⟩⟩] ⟨2024, 3⟩ = [⟨"__proto__", 5, ⟨2024, 3, 5⟩⟩] ∧
      chartData [⟨"__proto__", 5, ⟨2024, 3, 5⟩⟩] ⟨2024, 3⟩ = [] ∧
      chartData [⟨"constructor", 2, ⟨2024, 3, 5⟩⟩, ⟨"constructor", 3, ⟨2024, 3, 6⟩⟩] ⟨2024, 3⟩
        = [⟨"constructor", Val.str "function Object() \x7b [native code] \x7d" [2, 3],
            "#999"⟩] := by
  decide!

/-- C10 (as stated): in the scenario for month 2024-03 the values of the breakdown are not
70 followed by 30. -/
theorem scenario_march_values_not_seventy_thirty :
    (reportData [⟨"Food", 50, ⟨2024, 3, 5⟩⟩, ⟨"Travel", 30, ⟨2024, 3, 20⟩⟩,
        ⟨"Food", 20, ⟨2024, 2, 28⟩⟩] ⟨2024, 3⟩).chartData.map (fun x => x.value)
      ≠ [Val.num 70, Val.num 30] := by
  decide!

/-- C10 (amended): in the scenario for month 2024-03 the total is 80, the breakdown is the
Food entry with value 50 followed by the Travel entry with value 30, the dominant category
is the Food entry, and its percentage of the total is 62.5. -/
theorem scenario_march_report :
    reportData [⟨"Food", 50, ⟨2024, 3, 5⟩⟩, ⟨"Travel", 30, ⟨2024, 3, 20⟩⟩,
        ⟨"Food", 20, ⟨2024, 2, 28⟩⟩] ⟨2024, 3⟩
      = ⟨80, [⟨"Grocery/Food", Val.num 50, "#FF6B6B"⟩, ⟨"Travel", Val.num 30, "#45B7D1"⟩],
          some ⟨"Grocery/Food", Val.num 50, "#FF6B6B"⟩⟩ ∧
      highestSpendText (reportData [⟨"Food", 50, ⟨2024, 3, 5⟩⟩, ⟨"Travel", 30, ⟨2024, 3, 20⟩⟩,
        ⟨"Food", 20, ⟨2024, 2, 28⟩⟩] ⟨2024, 3⟩)
      = CardText.percentOfTotal (JSNumber.finite (125 / 2)) := by
  decide!

/-- C11: in the scenario for month 2024-02 the total is 20, the breakdown is the single
Food entry with value 20, the dominant category is that entry, and its percentage of the
total is 100. -/
theorem scenario_february_report :
    reportData [⟨"Food", 50, ⟨2024, 3, 5⟩⟩, ⟨"Travel", 30, ⟨2024, 3, 20⟩⟩,
        ⟨"Food", 20, ⟨2024, 2, 28⟩⟩] ⟨2024, 2⟩
      = ⟨20, [⟨"Grocery/Food", Val.num 20, "#FF6B6B"⟩],
          some ⟨"Grocery/Food", Val.num 20, "#FF6B6B"⟩⟩ ∧
      highestSpendText (reportData [⟨"Food", 50, ⟨2024, 3, 5⟩⟩, ⟨"Travel", 30, ⟨2024, 3, 20⟩⟩,
        ⟨"Food", 20, ⟨2024, 2, 28⟩⟩] ⟨2024, 2⟩)
      = CardText.percentOfTotal (JSNumber.finite 100) := by
  decide!

/-! ## Results on the submit handler -/

/-- The handler writes to the store exactly when the title is non-empty and the amount is
truthy: a non-empty text, or a non-zero number. -/
theorem handleSubmit_isSome_iff (today : String) (f : FormState) :
    (handleSubmit today f).isSome = true ↔ f.title ≠ "" ∧ f.amount.isFalsy = false := by
  unfold handleSubmit
  by_cases ht : f.title = ""
  · simp [ht]
  · cases ha : f.amount.isFalsy
    · simp only [ht, false_or, Bool.false_eq_true, if_false, ne_eq, not_false_eq_true, and_self,
        iff_true]
      cases f.editingId with
      | none => rfl
      | some id => by_cases hid : id = "" <;> simp [hid]
    · simp [ht]

/-- An empty title, an empty amount text and the number 0 are turned away at the guard. -/
theorem handleSubmit_rejects_empty (today title category date : String)
    (amount : FormAmount) (editingId : Option String) :
    handleSubmit today ⟨"", amount, category, date, editingId⟩ = none ∧
      handleSubmit today ⟨title, FormAmount.text "", category, date, editingId⟩ = none ∧
      handleSubmit today ⟨title, FormAmount.number 0, category, date, editingId⟩ = none := by
  refine ⟨?_, ?_, ?_⟩ <;> simp [handleSubmit, FormAmount.isFalsy]

/-- C12: with a non-empty title the handler writes the amount texts `0` and `-5`, which the
number input accepts, to the store as the amounts 0 and -5, on the create path and on the
update path; neither written amount is positive. -/
theorem submit_writes_non_positive_amount :
    handleSubmit "2024-03-05" ⟨"Coffee", FormAmount.text "0", "Food", "2024-03-05", none⟩
        = some (StoreWrite.addDoc ⟨"Coffee", JSNumber.finite 0, "Food", "2024-03-05"⟩) ∧
      handleSubmit "2024-03-05" ⟨"Coffee", FormAmount.text "-5", "Food", "2024-03-05", none⟩
        = some (StoreWrite.addDoc ⟨"Coffee", JSNumber.finite (-5), "Food", "2024-03-05"⟩) ∧
      handleSubmit "2024-03-05"
          ⟨"Coffee", FormAmount.text "-5", "Food", "2024-03-05", some "doc1"⟩
        = some (StoreWrite.updateDoc "doc1"
            ⟨"Coffee", JSNumber.finite (-5), "Food", "2024-03-05"⟩) ∧
      (JSNumber.finite 0).isPositive = false ∧ (JSNumber.finite (-5)).isPositive = false := by
  decide!

/-! ## Results on the currency preference -/

theorem currencyState_init_currency (prefs : PreferenceStore) :
    (CurrencyState.init prefs).currency = some defaultCurrency := rfl

/-- A snapshot of a document that names an enumerated currency selects that currency; a
snapshot of an unset preference leaves the selection as it is. -/
theorem onPreferencesSnapshot_eq (currency : Option Currency) (prefs : PreferenceStore)
    (uid : String) :
    onPreferencesSnapshot currency (assoc prefs uid)
      = match storedCurrency prefs uid with
        | some saved => some saved
        | none => currency := by
  unfold onPreferencesSnapshot storedCurrency
  cases assoc prefs uid with
  | none => rfl
  | some data =>
    cases hc : data.currency with
    | none => simp [hc]
    | some code =>
      by_cases he : code = ""
      · subst he
        have : findCurrency "" = none := by decide
        simp [hc, this]
      · cases hf : findCurrency code <;> simp [hc, he, hf]

theorem currencyStep_keeps_default (s : CurrencyState) (ev : CurrencyEvent)
    (hs : ∀ uid, storedCurrency s.prefs uid = none
      ∨ storedCurrency s.prefs uid = some defaultCurrency)
    (hc : s.currency = some defaultCurrency) (hev : ev.keepsSelection = true) :
    (s.step ev).prefs = s.prefs ∧ (s.step ev).currency = some defaultCurrency := by
  cases ev with
  | signIn uid => exact ⟨rfl, hc⟩
  | signOut => exact ⟨rfl, hc⟩
  | currencyChange code => simp [CurrencyEvent.keepsSelection] at hev
  | snapshot =>
    unfold CurrencyState.step
    cases hu : s.user with
    | none => exact ⟨rfl, hc⟩
    | some uid =>
      refine ⟨rfl, ?_⟩
      show onPreferencesSnapshot s.currency (assoc s.prefs uid) = some defaultCurrency
      rw [onPreferencesSnapshot_eq]
      rcases hs uid with h | h <;> simp [h, hc]

theorem currencyRun_keeps_default (events : List CurrencyEvent) :
    ∀ s : CurrencyState,
      (∀ uid, storedCurrency s.prefs uid = none
        ∨ storedCurrency s.prefs uid = some defaultCurrency) →
      s.currency = some defaultCurrency →
      (∀ ev ∈ events, ev.keepsSelection = true) →
      (s.run events).currency = some defaultCurrency := by
  induction events with
  | nil => intro s _ hc _; exact hc
  | cons ev rest ih =>
    intro s hs hc hev
    obtain ⟨hp, hc2⟩ := currencyStep_keeps_default s ev hs hc (hev ev (List.mem_cons_self _ _))
    exact ih (s.step ev) (by rw [hp]; exact hs) hc2
      (fun x hx => hev x (List.mem_cons_of_mem _ hx))

/-- In a session without currency change, over a store in which every preference is unset
or names the first currency, the active currency is the first enumerated currency after
every sequence of sign-in, snapshot and sign-out events. -/
theorem currency_default_without_selection (prefs : PreferenceStore)
    (events : List CurrencyEvent)
    (hs : ∀ uid, storedCurrency prefs uid = none ∨ storedCurrency prefs uid = some defaultCurrency)
    (hev : ∀ ev ∈ events, ev.keepsSelection = true) :
    ((CurrencyState.init prefs).run events).currency = some defaultCurrency :=
  currencyRun_keeps_default events (CurrencyState.init prefs) hs rfl hev

theorem currency_default_without_selection_witness :
    ((CurrencyState.init []).run
      [CurrencyEvent.signIn "A", CurrencyEvent.snapshot, CurrencyEvent.signOut,
        CurrencyEvent.signIn "B", CurrencyEvent.snapshot]).currency = some defaultCurrency :=
  currency_default_without_selection [] _ (by intro uid; exact Or.inl rfl) (by decide)

/-- C13: after user A selected INR and signed out, user B signs in without a preferences
document and the listener delivers that absence: B is the signed-in user, B's stored
preference is unset, and the active currency is INR, not the first enumerated currency.
The same holds when A's INR comes from A's stored preference. -/
theorem currency_kept_from_previous_user :
    ((CurrencyState.init []).run
        [CurrencyEvent.signIn "A", CurrencyEvent.currencyChange "INR", CurrencyEvent.signOut,
          CurrencyEvent.signIn "B", CurrencyEvent.snapshot]).user = some "B" ∧
      storedCurrency ((CurrencyState.init []).run
        [CurrencyEvent.signIn "A", CurrencyEvent.currencyChange "INR", CurrencyEvent.signOut,
          CurrencyEvent.signIn "B", CurrencyEvent.snapshot]).prefs "B" = none ∧
      ((CurrencyState.init []).run
        [CurrencyEvent.signIn "A", CurrencyEvent.currencyChange "INR", CurrencyEvent.signOut,
          CurrencyEvent.signIn "B", CurrencyEvent.snapshot]).currency
        = some ⟨"INR", "₹", "₹", 0⟩ ∧
      ((CurrencyState.init [("A", ⟨some "INR"⟩)]).run
        [CurrencyEvent.signIn "A", CurrencyEvent.snapshot, CurrencyEvent.signOut,
          CurrencyEvent.signIn "B", CurrencyEvent.snapshot]).currency
        = some ⟨"INR", "₹", "₹", 0⟩ ∧
      storedCurrency [("A", ⟨some "INR"⟩)] "B" = none := by
  decide

/-! ## Results on the header -/

theorem viewRun_keeps_month (events : List ViewEvent) :
    ∀ s : ViewState, (∀ ev ∈ events, ev.keepsMonth = true) →
      (s.run events).reportMonth = s.reportMonth := by
  induction events with
  | nil => intro s _; rfl
  | cons ev rest ih =>
    intro s hev
    have h1 : (s.step ev).reportMonth = s.reportMonth := by
      have hk := hev ev (List.mem_cons_self _ _)
      cases ev with
      | setView v => rfl
      | setReportMonth k => simp [ViewEvent.keepsMonth] at hk
      | handleEdit => rfl
      | expensesSnapshot data => rfl
    have h2 := ih (s.step ev) (fun x hx => hev x (List.mem_cons_of_mem _ hx))
    exact h2.trans h1

/-- For a month key whose year is at least 100 and expenses with calendar dates, the total
of the report is the sum of the amounts of the expenses dated in that month. -/
theorem total_eq_monthSum (expenses : List Expense) (k : MonthKey) (hk : k.valid)
    (hy : 100 ≤ k.year) (hd : ∀ e ∈ expenses, e.date.valid) :
    total expenses k = monthSum expenses k := by
  rw [total_eq_sum]
  unfold filtered monthSum
  have hf : expenses.filter (inReportMonth k)
      = expenses.filter (fun e => decide (dateInMonth k e.date)) := by
    apply List.filter_congr
    intro e he
    have h := inReportMonth_iff k e hk hy (hd e he)
    by_cases hm : dateInMonth k e.date
    · simp [hm, h.2 hm]
    · have : inReportMonth k e = false := by
        rw [Bool.eq_false_iff]
        exact fun h2 => hm (h.1 h2)
      simp [hm, this]
  rw [hf]

/-- As long as no report month has been picked, the header of the record view shows the sum
of the amounts of the expenses dated in the current month. -/
theorem headerTotal_current_month (currentMonth : MonthKey) (events : List ViewEvent)
    (hk : currentMonth.valid) (hy : 100 ≤ currentMonth.year)
    (hev : ∀ ev ∈ events, ev.keepsMonth = true)
    (hd : ∀ e ∈ ((ViewState.init currentMonth).run events).expenses, e.date.valid)
    (hv : ((ViewState.init currentMonth).run events).view = View.record) :
    headerTotal ((ViewState.init currentMonth).run events)
      = some (monthSum ((ViewState.init currentMonth).run events).expenses currentMonth) := by
  have hm := viewRun_keeps_month events (ViewState.init currentMonth) hev
  unfold headerTotal
  rw [hv]
  show some (total _ _) = _
  rw [hm]
  show some (total _ currentMonth) = _
  rw [total_eq_monthSum _ currentMonth hk hy hd]

theorem headerTotal_current_month_witness :
    headerTotal ((ViewState.init ⟨2024, 3⟩).run
        [ViewEvent.expensesSnapshot [⟨"Food", 50, ⟨2024, 3, 5⟩⟩, ⟨"Food", 20, ⟨2024, 2, 28⟩⟩],
          ViewEvent.setView View.report, ViewEvent.setView View.record])
      = some (monthSum ((ViewState.init ⟨2024, 3⟩).run
        [ViewEvent.expensesSnapshot [⟨"Food", 50, ⟨2024, 3, 5⟩⟩, ⟨"Food", 20, ⟨2024, 2, 28⟩⟩],
          ViewEvent.setView View.report, ViewEvent.setView View.record]).expenses ⟨2024, 3⟩) :=
  headerTotal_current_month ⟨2024, 3⟩ _ (by decide) (by decide) (by decide) (by decide)
    (by decide)

/-- C14: with current month 2024-03 and expenses of 50 in March and 20 in February, after the
user opens the report view, picks the month 2024-02 and returns to the record view, the
header shows 20, while the expenses dated in the current month sum to 50. -/
theorem header_total_follows_report_month :
    ((ViewState.init ⟨2024, 3⟩).run
        [ViewEvent.expensesSnapshot [⟨"Food", 50, ⟨2024, 3, 5⟩⟩, ⟨"Food", 20, ⟨2024, 2, 28⟩⟩],
          ViewEvent.setView View.report, ViewEvent.setReportMonth ⟨2024, 2⟩,
          ViewEvent.setView View.record]).view = View.record ∧
      headerTotal ((ViewState.init ⟨2024, 3⟩).run
        [ViewEvent.expensesSnapshot [⟨"Food", 50, ⟨2024, 3, 5⟩⟩, ⟨"Food", 20, ⟨2024, 2, 28⟩⟩],
          ViewEvent.setView View.report, ViewEvent.setReportMonth ⟨2024, 2⟩,
          ViewEvent.setView View.record]) = some 20 ∧
      monthSum [⟨"Food", 50, ⟨2024, 3, 5⟩⟩, ⟨"Food", 20, ⟨2024, 2, 28⟩⟩] ⟨2024, 3⟩ = 50 := by
  decide!

/-! ## Results on the order of ties -/

/-- C15 (as stated): the included expenses have the category ids `2` and then `1`, both
with sum 5, and the breakdown lists the entry of `1` in front of the entry of `2`. -/
theorem tie_order_reversed_for_index_keys :
    filtered [⟨"2", 5, ⟨2024, 3, 5⟩⟩, ⟨"1", 5, ⟨2024, 3, 6⟩⟩] ⟨2024, 3⟩
        = [⟨"2", 5, ⟨2024, 3, 5⟩⟩, ⟨"1", 5, ⟨2024, 3, 6⟩⟩] ∧
      chartData [⟨"2", 5, ⟨2024, 3, 5⟩⟩, ⟨"1", 5, ⟨2024, 3, 6⟩⟩] ⟨2024, 3⟩
        = [⟨"1", Val.num 5, "#999"⟩, ⟨"2", Val.num 5, "#999"⟩] := by
  decide!

/-! ## Results on the order of ties with the arithmetic left open -/

theorem map_fst_updateProp_any {N : Type} (acc : List (String × AnyArith.Val N))
    (key : String) (v : AnyArith.Val N) :
    (AnyArith.updateProp acc key v).map Prod.fst = acc.map Prod.fst := by
  induction acc with
  | nil => simp [AnyArith.updateProp]
  | cons p rest ih =>
    obtain ⟨k1, v1⟩ := p
    by_cases h : k1 = key
    · simp [AnyArith.updateProp, h]
    · simp [AnyArith.updateProp, h, ih]

/-- A step of the reduce leaves the keys as they are, or appends the category id when it
is not `__proto__` and not yet a key. -/
theorem keys_accumulate_any {N : Type} (ops : NumberOps N)
    (acc : List (String × AnyArith.Val N)) (e : AnyArith.Expense N) :
    (AnyArith.accumulate ops acc e).map Prod.fst
      = if e.category = "__proto__" ∨ e.category ∈ acc.map Prod.fst then acc.map Prod.fst
        else acc.map Prod.fst ++ [e.category] := by
  unfold AnyArith.accumulate AnyArith.setProp
  by_cases hp : e.category = "__proto__"
  · simp [hp]
  · cases ha : assoc acc e.category with
    | none =>
      have hn := (assoc_eq_none_iff acc e.category).1 ha
      simp only [hp, if_false, false_or, hn, List.map_append, List.map_cons, List.map_nil]
    | some v =>
      have hm : e.category ∈ acc.map Prod.fst := by
        by_contra hnot
        rw [← assoc_eq_none_iff, ha] at hnot
        exact absurd hnot (by simp)
      simp only [hp, if_false, false_or, hm, if_true, map_fst_updateProp_any]

theorem keys_foldl_any {N : Type} (ops : NumberOps N) (l : List (AnyArith.Expense N)) :
    ∀ acc : List (String × AnyArith.Val N),
      (∃ suffix, (l.foldl (AnyArith.accumulate ops) acc).map Prod.fst
        = acc.map Prod.fst ++ suffix) ∧
      ((acc.map Prod.fst).Nodup → ((l.foldl (AnyArith.accumulate ops) acc).map Prod.fst).Nodup) ∧
      ∀ c, c ∈ (l.foldl (AnyArith.accumulate ops) acc).map Prod.fst
        ↔ c ∈ acc.map Prod.fst ∨ (c ≠ "__proto__" ∧ ∃ e ∈ l, e.category = c) := by
  induction l with
  | nil => intro acc; exact ⟨⟨[], by simp⟩, fun h => h, fun c => by simp⟩
  | cons e rest ih =>
    intro acc
    obtain ⟨⟨s, hs⟩, hnd, hmem⟩ := ih (AnyArith.accumulate ops acc e)
    have hk := keys_accumulate_any ops acc e
    by_cases hc : e.category = "__proto__" ∨ e.category ∈ acc.map Prod.fst
    · rw [if_pos hc] at hk
      refine ⟨⟨s, by rw [List.foldl_cons, hs, hk]⟩, ?_, ?_⟩
      · intro h
        rw [List.foldl_cons]
        exact hnd (by rw [hk]; exact h)
      · intro c
        rw [List.foldl_cons, hmem c, hk]
        constructor
        · rintro (h | ⟨h1, x, hx, hxc⟩)
          · exact Or.inl h
          · exact Or.inr ⟨h1, x, List.mem_cons_of_mem _ hx, hxc⟩
        · rintro (h | ⟨h1, x, hx, hxc⟩)
          · exact Or.inl h
          · rcases List.mem_cons.1 hx with h2 | h2
            · subst h2
              rcases hc with h3 | h3
              · exact absurd (hxc ▸ h3) h1
              · exact Or.inl (hxc ▸ h3)
            · exact Or.inr ⟨h1, x, h2, hxc⟩
    · rw [if_neg hc] at hk
      have hc1 : e.category ≠ "__proto__" := fun h => hc (Or.inl h)
      have hc2 : e.category ∉ acc.map Prod.fst := fun h => hc (Or.inr h)
      refine ⟨⟨e.category :: s, by rw [List.foldl_cons, hs, hk]; simp⟩, ?_, ?_⟩
      · intro h
        rw [List.foldl_cons]
        apply hnd
        rw [hk, List.nodup_append]
        refine ⟨h, by simp, ?_⟩
        intro a ha hb
        simp at hb
        subst hb
        exact hc2 ha
      · intro c
        rw [List.foldl_cons, hmem c, hk]
        constructor
        · rintro (h | ⟨h1, x, hx, hxc⟩)
          · rcases List.mem_append.1 h with h2 | h2
            · exact Or.inl h2
            · simp at h2
              subst h2
              exact Or.inr ⟨hc1, e, List.mem_cons_self _ _, rfl⟩
          · exact Or.inr ⟨h1, x, List.mem_cons_of_mem _ hx, hxc⟩
        · rintro (h | ⟨h1, x, hx, hxc⟩)
          · exact Or.inl (List.mem_append_left _ h)
          · rcases List.mem_cons.1 hx with h2 | h2
            · subst h2
              exact Or.inl (List.mem_append_right _ (by simp [hxc]))
            · exact Or.inr ⟨h1, x, h2, hxc⟩

theorem pair_sublist_of_keys {β : Type} (l : List (String × β)) (c1 c2 : String) (v1 v2 : β)
    (nd : (l.map Prod.fst).Nodup) (h1 : assoc l c1 = some v1) (h2 : assoc l c2 = some v2)
    (hs : List.Sublist [c1, c2] (l.map Prod.fst)) : List.Sublist [(c1, v1), (c2, v2)] l := by
  obtain ⟨l', hl', hmap⟩ := List.sublist_map_iff.1 hs
  match l', hl', hmap with
  | [p, q], hl', hmap =>
    simp only [List.map_cons, List.map_nil, List.cons.injEq, and_true] at hmap
    obtain ⟨hp, hq⟩ := hmap
    have hpm : p ∈ l := hl'.subset (by simp)
    have hqm : q ∈ l := hl'.subset (by simp)
    have e1 := assoc_eq_some_of_mem l p.1 p.2 nd hpm
    have e2 := assoc_eq_some_of_mem l q.1 q.2 nd hqm
    rw [← hp, h1] at e1
    rw [← hq, h2] at e2
    have hp2 : p = (c1, v1) := by
      cases p; simp at hp e1 ⊢; exact ⟨hp.symm, e1.symm⟩
    have hq2 : q = (c2, v2) := by
      cases q; simp at hq e2 ⊢; exact ⟨hq.symm, e2.symm⟩
    rw [← hp2, ← hq2]
    exact hl'

theorem objectEntries_sublist_any {N : Type} (obj : List (String × AnyArith.Val N))
    (p q : String × AnyArith.Val N) (hp : arrayIndex p.1 = none) (hq : arrayIndex q.1 = none)
    (h : List.Sublist [p, q] obj) : List.Sublist [p, q] (AnyArith.objectEntries obj) := by
  unfold AnyArith.objectEntries
  apply List.sublist_append_of_sublist_right
  have hf := List.Sublist.filter (fun x : String × AnyArith.Val N => !(arrayIndex x.1).isSome) h
  simpa [hp, hq] using hf

/-- A category id first seen before any expense of a second id has its key in front of the
second id's key in the accumulator, whatever the arithmetic. -/
theorem keys_order_any {N : Type} (ops : NumberOps N) (expenses : List (AnyArith.Expense N))
    (k : MonthKey) (pre post : List (AnyArith.Expense N)) (e1 : AnyArith.Expense N)
    (c2 : String)
    (hsplit : AnyArith.filtered expenses k = pre ++ e1 :: post)
    (hpre : ∀ e ∈ pre, e.category ≠ c2) (hne : e1.category ≠ c2)
    (h1 : e1.category ∈ (AnyArith.byCategory ops expenses k).map Prod.fst)
    (h2 : c2 ∈ (AnyArith.byCategory ops expenses k).map Prod.fst) :
    List.Sublist [e1.category, c2] ((AnyArith.byCategory ops expenses k).map Prod.fst) := by
  have hall := (keys_foldl_any ops (AnyArith.filtered expenses k) []).2.2
  have hproto : e1.category ≠ "__proto__" := by
    have := (hall e1.category).1 h1
    simpa using this.resolve_left (by simp) |>.1
  have hfold : AnyArith.byCategory ops expenses k
      = post.foldl (AnyArith.accumulate ops) ((pre ++ [e1]).foldl (AnyArith.accumulate ops) []) := by
    unfold AnyArith.byCategory
    rw [hsplit, ← List.foldl_append]
    simp
  have hfirst := (keys_foldl_any ops (pre ++ [e1]) []).2.2
  have hc1 : e1.category ∈ ((pre ++ [e1]).foldl (AnyArith.accumulate ops) []).map Prod.fst :=
    (hfirst e1.category).2 (Or.inr ⟨hproto, e1, by simp, rfl⟩)
  have hc2 : c2 ∉ ((pre ++ [e1]).foldl (AnyArith.accumulate ops) []).map Prod.fst := by
    intro h
    rcases (hfirst c2).1 h with h3 | ⟨_, x, hx, hxc⟩
    · simp at h3
    · rcases List.mem_append.1 hx with h4 | h4
      · exact hpre x h4 hxc
      · simp at h4
        subst h4
        exact hne hxc
  obtain ⟨suffix, hs⟩ := (keys_foldl_any ops post
    ((pre ++ [e1]).foldl (AnyArith.accumulate ops) [])).1
  rw [hfold, hs] at h2 ⊢
  have hsuf : c2 ∈ suffix := by
    rcases List.mem_append.1 h2 with h | h
    · exact absurd h hc2
    · exact h
  exact List.Sublist.append (List.singleton_sublist.2 hc1) (List.singleton_sublist.2 hsuf)

/-- Stability of the sort on the breakdown: when the first of two category ids is seen
before any expense of the second, neither id is an array index, and the comparator does not
ask for the second entry first, the first id's entry stays in front, whatever the
arithmetic. -/
theorem entries_keep_first_occurrence_order {N : Type} (ops : NumberOps N)
    (expenses : List (AnyArith.Expense N)) (k : MonthKey)
    (pre post : List (AnyArith.Expense N)) (e1 : AnyArith.Expense N) (c2 : String)
    (v1 v2 : AnyArith.Val N)
    (hsplit : AnyArith.filtered expenses k = pre ++ e1 :: post)
    (hpre : ∀ e ∈ pre, e.category ≠ c2) (hne : e1.category ≠ c2)
    (hi1 : arrayIndex e1.category = none) (hi2 : arrayIndex c2 = none)
    (hv1 : assoc (AnyArith.byCategory ops expenses k) e1.category = some v1)
    (hv2 : assoc (AnyArith.byCategory ops expenses k) c2 = some v2)
    (hle : AnyArith.sortCompare ops (AnyArith.toChartEntry (e1.category, v1))
      (AnyArith.toChartEntry (c2, v2)) ≤ 0) :
    List.Sublist [AnyArith.toChartEntry (e1.category, v1), AnyArith.toChartEntry (c2, v2)]
      (AnyArith.chartData ops expenses k) := by
  have hm1 : e1.category ∈ (AnyArith.byCategory ops expenses k).map Prod.fst := by
    by_contra hnot
    rw [← assoc_eq_none_iff, hv1] at hnot
    exact absurd hnot (by simp)
  have hm2 : c2 ∈ (AnyArith.byCategory ops expenses k).map Prod.fst := by
    by_contra hnot
    rw [← assoc_eq_none_iff, hv2] at hnot
    exact absurd hnot (by simp)
  have hkeys := keys_order_any ops expenses k pre post e1 c2 hsplit hpre hne hm1 hm2
  have hnd : ((AnyArith.byCategory ops expenses k).map Prod.fst).Nodup :=
    (keys_foldl_any ops (AnyArith.filtered expenses k) []).2.1 (by simp)
  have hpairs := pair_sublist_of_keys _ e1.category c2 v1 v2 hnd hv1 hv2 hkeys
  have hent := objectEntries_sublist_any _ (e1.category, v1) (c2, v2) hi1 hi2 hpairs
  have hmapped := List.Sublist.map AnyArith.toChartEntry hent
  exact List.pair_sublist_insertionSort hle hmapped

theorem value_toChartEntry_any {N : Type} (p : String × AnyArith.Val N) :
    (AnyArith.toChartEntry p).value = p.2 := by
  unfold AnyArith.toChartEntry
  split <;> rfl

/-- Under a consistent comparator two entries with the same value are a tie. -/
theorem sortCompare_eq_zero_of_value_eq {N : Type} (ops : NumberOps N)
    (l : List (AnyArith.ChartEntry N)) (a b : AnyArith.ChartEntry N)
    (hcons : AnyArith.consistentOn ops l) (ha : a ∈ l) (hb : b ∈ l)
    (hv : a.value = b.value) : AnyArith.sortCompare ops a b = 0 := by
  have h1 := hcons.1 a ha b hb
  have h2 : AnyArith.sortCompare ops a b = AnyArith.sortCompare ops b a := by
    unfold AnyArith.sortCompare
    rw [hv]
  omega

/-! ## The exact embedding is the open one at exact numbers -/

theorem filtered_toAny (expenses : List Expense) (k : MonthKey) :
    (filtered expenses k).map Expense.toAny
      = AnyArith.filtered (expenses.map Expense.toAny) k := by
  unfold filtered AnyArith.filtered
  induction expenses with
  | nil => rfl
  | cons e rest ih =>
    have h : AnyArith.inReportMonth k e.toAny = inReportMonth k e := rfl
    simp only [List.filter_cons, List.map_cons, h]
    split <;> simp [ih]

theorem assoc_pairToAny (acc : JSObject) (key : String) :
    assoc (acc.map pairToAny) key = (assoc acc key).map Val.toAny := by
  induction acc with
  | nil => rfl
  | cons p rest ih =>
    obtain ⟨k1, v1⟩ := p
    by_cases h : k1 = key
    · simp [assoc, pairToAny, h]
    · simp [assoc, pairToAny, h]
      simpa [pairToAny] using ih

theorem updateProp_toAny (acc : JSObject) (key : String) (v : Val) :
    (updateProp acc key v).map pairToAny
      = AnyArith.updateProp (acc.map pairToAny) key v.toAny := by
  induction acc with
  | nil => rfl
  | cons p rest ih =>
    obtain ⟨k1, v1⟩ := p
    by_cases h : k1 = key
    · simp [updateProp, AnyArith.updateProp, pairToAny, h]
    · simp [updateProp, AnyArith.updateProp, pairToAny, h]
      simpa [pairToAny] using ih

theorem accumulate_toAny (acc : JSObject) (e : Expense) :
    (accumulate acc e).map pairToAny
      = AnyArith.accumulate exactOps (acc.map pairToAny) e.toAny := by
  have hcat : e.toAny.category = e.category := rfl
  have hamt : e.toAny.amount = e.amount := rfl
  unfold accumulate AnyArith.accumulate setProp AnyArith.setProp getProp AnyArith.getProp
  rw [hcat, hamt, assoc_pairToAny]
  by_cases hp : e.category = "__proto__"
  · simp [hp]
  · cases ha : assoc acc e.category with
    | none =>
      simp only [hp, if_false, Option.map_none', List.map_append, List.map_cons, List.map_nil]
      cases assoc objectPrototypeFunctions e.category <;>
        simp [pairToAny, orZeroPlus, AnyArith.orZeroPlus, Val.toAny, exactOps]
    | some v =>
      simp only [hp, if_false, Option.map_some', updateProp_toAny]
      congr 1
      cases v with
      | num q =>
        by_cases hq : q = 0 <;>
          simp [orZeroPlus, AnyArith.orZeroPlus, Val.toAny, exactOps, hq]
      | str base appended => simp [orZeroPlus, AnyArith.orZeroPlus, Val.toAny]

theorem foldl_accumulate_toAny (l : List Expense) :
    ∀ acc : JSObject, (l.foldl accumulate acc).map pairToAny
      = (l.map Expense.toAny).foldl (AnyArith.accumulate exactOps) (acc.map pairToAny) := by
  induction l with
  | nil => intro acc; rfl
  | cons e rest ih =>
    intro acc
    rw [List.foldl_cons, ih, accumulate_toAny]
    rfl

theorem byCategory_toAny (expenses : List Expense) (k : MonthKey) :
    (byCategory expenses k).map pairToAny
      = AnyArith.byCategory exactOps (expenses.map Expense.toAny) k := by
  unfold byCategory AnyArith.byCategory
  rw [foldl_accumulate_toAny, filtered_toAny]
  rfl

theorem filter_key_toAny (obj : JSObject) (test : String → Bool) :
    (obj.filter (fun p => test p.1)).map pairToAny
      = (obj.map pairToAny).filter (fun p => test p.1) := by
  induction obj with
  | nil => rfl
  | cons x rest ih =>
    have hx : (pairToAny x).1 = x.1 := rfl
    simp only [List.filter_cons, List.map_cons, hx]
    split <;> simp [ih]

theorem objectEntries_toAny (obj : JSObject) :
    (objectEntries obj).map pairToAny = AnyArith.objectEntries (obj.map pairToAny) := by
  unfold objectEntries AnyArith.objectEntries
  rw [List.map_append, filter_key_toAny obj (fun c => !(arrayIndex c).isSome),
    ← filter_key_toAny obj (fun c => (arrayIndex c).isSome)]
  congr 1
  exact List.map_insertionSort _ _ pairToAny _ (fun a _ b _ => Iff.rfl)

theorem toChartEntry_toAny (p : String × Val) :
    (toChartEntry p).toAny = AnyArith.toChartEntry (pairToAny p) := by
  unfold toChartEntry AnyArith.toChartEntry
  have h : (pairToAny p).1 = p.1 := rfl
  rw [h]
  cases CATEGORIES.find? (fun c => c.id == p.1) <;> rfl

theorem keepsOrder_toAny (a b : ChartEntry) :
    keepsOrder a b ↔ AnyArith.keepsOrder exactOps a.toAny b.toAny := by
  unfold keepsOrder AnyArith.keepsOrder sortCompare AnyArith.sortCompare compareFn
  cases ha : a.value with
  | num x =>
    cases hb : b.value with
    | num y =>
      simp only [ChartEntry.toAny, ha, hb, Val.toAny, Val.toNumber, Option.getD_some, exactOps]
      by_cases h1 : y - x < 0
      · simp [h1, le_of_lt h1]
      · by_cases h2 : 0 < y - x
        · simp [h1, h2, not_le.2 h2]
        · have h3 : y - x = 0 := le_antisymm (not_lt.1 h2) (not_lt.1 h1)
          simp [h3]
    | str base appended => simp [ChartEntry.toAny, ha, hb, Val.toAny, Val.toNumber]
  | str base appended =>
    cases hb : b.value <;> simp [ChartEntry.toAny, ha, hb, Val.toAny, Val.toNumber]

/-- The breakdown of the exact embedding is the breakdown of the open one at the exact
operations. -/
theorem chartData_toAny (expenses : List Expense) (k : MonthKey) :
    (chartData expenses k).map ChartEntry.toAny
      = AnyArith.chartData exactOps (expenses.map Expense.toAny) k := by
  unfold chartData AnyArith.chartData AnyArith.mappedEntries
  rw [← byCategory_toAny, ← objectEntries_toAny, List.map_map]
  have hm : (objectEntries (byCategory expenses k)).map (AnyArith.toChartEntry ∘ pairToAny)
      = ((objectEntries (byCategory expenses k)).map toChartEntry).map ChartEntry.toAny := by
    rw [List.map_map]
    apply List.map_congr_left
    intro p _
    exact (toChartEntry_toAny p).symm
  rw [hm]
  exact List.map_insertionSort _ _ ChartEntry.toAny _ (fun a _ b _ => keepsOrder_toAny a b)

theorem mem_of_assoc_eq_some {β : Type} (l : List (String × β)) (key : String) (v : β)
    (h : assoc l key = some v) : (key, v) ∈ l := by
  induction l with
  | nil => simp [assoc] at h
  | cons p rest ih =>
    obtain ⟨k1, v1⟩ := p
    by_cases h1 : k1 = key
    · simp [assoc, h1] at h
      simp [h1, h]
    · simp [assoc, h1] at h
      exact List.mem_cons_of_mem _ (ih h)

theorem objectEntries_perm_any {N : Type} (obj : List (String × AnyArith.Val N)) :
    (AnyArith.objectEntries obj).Perm obj := by
  unfold AnyArith.objectEntries
  refine List.Perm.trans (List.Perm.append_right _ (List.perm_insertionSort _ _)) ?_
  exact List.filter_append_perm (fun p => (arrayIndex p.1).isSome) obj

theorem mem_mappedEntries_of_assoc {N : Type} (ops : NumberOps N)
    (expenses : List (AnyArith.Expense N)) (k : MonthKey) (c : String) (v : AnyArith.Val N)
    (h : assoc (AnyArith.byCategory ops expenses k) c = some v) :
    AnyArith.toChartEntry (c, v) ∈ AnyArith.mappedEntries ops expenses k := by
  unfold AnyArith.mappedEntries
  apply List.mem_map_of_mem
  exact (objectEntries_perm_any _).mem_iff.2 (mem_of_assoc_eq_some _ c v h)

theorem mem_updateProp_any {N : Type} (acc : List (String × AnyArith.Val N)) (key : String)
    (v : AnyArith.Val N) (p : String × AnyArith.Val N)
    (h : p ∈ AnyArith.updateProp acc key v) : p ∈ acc ∨ p.2 = v := by
  induction acc with
  | nil => simp [AnyArith.updateProp] at h
  | cons q rest ih =>
    obtain ⟨k1, w⟩ := q
    by_cases hk : k1 = key
    · simp only [AnyArith.updateProp, hk, if_true, List.mem_cons] at h
      rcases h with h | h
      · exact Or.inr (by rw [h])
      · exact Or.inl (List.mem_cons_of_mem _ h)
    · simp only [AnyArith.updateProp, hk, if_false, List.mem_cons] at h
      rcases h with h | h
      · exact Or.inl (by rw [h]; exact List.mem_cons_self _ _)
      · rcases ih h with h2 | h2
        · exact Or.inl (List.mem_cons_of_mem _ h2)
        · exact Or.inr h2

/-- A step of the reduce on a category id that `Object.prototype` does not provide keeps
every stored value a number. -/
theorem accumulate_numeric_any {N : Type} (ops : NumberOps N)
    (acc : List (String × AnyArith.Val N)) (e : AnyArith.Expense N)
    (hacc : ∀ p ∈ acc, ∃ x, p.2 = AnyArith.Val.num x) (hk : e.category ∉ inheritedKeys) :
    ∀ p ∈ AnyArith.accumulate ops acc e, ∃ x, p.2 = AnyArith.Val.num x := by
  have hproto : e.category ≠ "__proto__" := by
    intro h2
    exact hk (by simp [inheritedKeys, h2])
  have hfun : assoc objectPrototypeFunctions e.category = none := by
    rw [assoc_eq_none_iff]
    intro h3
    exact hk (List.mem_cons_of_mem _ h3)
  intro p hp
  unfold AnyArith.accumulate AnyArith.setProp AnyArith.getProp at hp
  cases ha : assoc acc e.category with
  | none =>
    simp only [ha, hproto, if_false, hfun, AnyArith.orZeroPlus, List.mem_append,
      List.mem_singleton] at hp
    rcases hp with h | h
    · exact hacc p h
    · exact ⟨_, by rw [h]⟩
  | some v =>
    obtain ⟨y, hy⟩ := hacc (e.category, v) (mem_of_assoc_eq_some acc e.category v ha)
    simp only at hy
    subst hy
    simp only [ha, hproto, if_false, AnyArith.orZeroPlus] at hp
    rcases mem_updateProp_any _ _ _ p hp with h | h
    · exact hacc p h
    · by_cases hf : ops.isFalsy y = true
      · exact ⟨_, by rw [h, if_pos hf]⟩
      · exact ⟨_, by rw [h, if_neg hf]⟩

theorem byCategory_numeric_any {N : Type} (ops : NumberOps N)
    (expenses : List (AnyArith.Expense N)) (k : MonthKey)
    (hk : ∀ e ∈ AnyArith.filtered expenses k, e.category ∉ inheritedKeys) :
    ∀ p ∈ AnyArith.byCategory ops expenses k, ∃ x, p.2 = AnyArith.Val.num x := by
  unfold AnyArith.byCategory
  have key : ∀ (l : List (AnyArith.Expense N)) (acc : List (String × AnyArith.Val N)),
      (∀ p ∈ acc, ∃ x, p.2 = AnyArith.Val.num x) → (∀ e ∈ l, e.category ∉ inheritedKeys) →
      ∀ p ∈ l.foldl (AnyArith.accumulate ops) acc, ∃ x, p.2 = AnyArith.Val.num x := by
    intro l
    induction l with
    | nil => intro acc hacc _; exact hacc
    | cons e rest ih =>
      intro acc hacc hl
      rw [List.foldl_cons]
      exact ih _ (accumulate_numeric_any ops acc e hacc (hl e (List.mem_cons_self _ _)))
        (fun x hx => hl x (List.mem_cons_of_mem _ hx))
  exact key _ [] (by simp) hk

/-- C15 (amended): two breakdown entries with equal values appear in the order in which
their category ids first occur among the included expenses: when the first id is seen
before any expense of the second, its entry is in front. The values are the numbers the code
accumulates with its own `+`, whatever that arithmetic rounds, and a pair whose difference
the sort reads as 0 counts as equal. This holds for ids that are not array-index strings,
in months in which no included category id is a property name inherited from
`Object.prototype` and the comparator is consistent on the entries. -/
theorem equal_values_keep_first_occurrence_order {N : Type} (ops : NumberOps N)
    (expenses : List (AnyArith.Expense N)) (k : MonthKey)
    (pre post : List (AnyArith.Expense N)) (e1 : AnyArith.Expense N) (c2 : String)
    (v1 v2 : AnyArith.Val N)
    (hk : ∀ e ∈ AnyArith.filtered expenses k, e.category ∉ inheritedKeys)
    (hsplit : AnyArith.filtered expenses k = pre ++ e1 :: post)
    (hpre : ∀ e ∈ pre, e.category ≠ c2) (hne : e1.category ≠ c2)
    (hi1 : arrayIndex e1.category = none) (hi2 : arrayIndex c2 = none)
    (hv1 : assoc (AnyArith.byCategory ops expenses k) e1.category = some v1)
    (hv2 : assoc (AnyArith.byCategory ops expenses k) c2 = some v2)
    (hcons : AnyArith.consistentOn ops (AnyArith.mappedEntries ops expenses k))
    (htie : v1 = v2 ∨ AnyArith.sortCompare ops (AnyArith.toChartEntry (e1.category, v1))
      (AnyArith.toChartEntry (c2, v2)) = 0) :
    (∃ x y, v1 = AnyArith.Val.num x ∧ v2 = AnyArith.Val.num y) ∧
      List.Sublist [AnyArith.toChartEntry (e1.category, v1), AnyArith.toChartEntry (c2, v2)]
        (AnyArith.chartData ops expenses k) := by
  constructor
  · obtain ⟨x, hx⟩ := byCategory_numeric_any ops expenses k hk _
      (mem_of_assoc_eq_some _ _ _ hv1)
    obtain ⟨y, hy⟩ := byCategory_numeric_any ops expenses k hk _
      (mem_of_assoc_eq_some _ _ _ hv2)
    exact ⟨x, y, hx, hy⟩
  apply entries_keep_first_occurrence_order ops expenses k pre post e1 c2 v1 v2 hsplit hpre hne
    hi1 hi2 hv1 hv2
  rcases htie with h | h
  · have hz := sortCompare_eq_zero_of_value_eq ops _ (AnyArith.toChartEntry (e1.category, v1))
      (AnyArith.toChartEntry (c2, v2)) hcons
      (mem_mappedEntries_of_assoc ops expenses k _ _ hv1)
      (mem_mappedEntries_of_assoc ops expenses k _ _ hv2)
      (by rw [value_toChartEntry_any, value_toChartEntry_any]; exact h)
    omega
  · omega

theorem equal_values_keep_first_occurrence_order_witness :
    (∀ e ∈ AnyArith.filtered
        [(⟨"Pets", 5, ⟨2024, 3, 5⟩⟩ : AnyArith.Expense ℚ), ⟨"Food", 2, ⟨2024, 3, 6⟩⟩,
          ⟨"Food", 3, ⟨2024, 3, 7⟩⟩] ⟨2024, 3⟩, e.category ∉ inheritedKeys) ∧
      arrayIndex "Pets" = none ∧ arrayIndex "Food" = none ∧
      AnyArith.consistentOn exactOps (AnyArith.mappedEntries exactOps
        [⟨"Pets", 5, ⟨2024, 3, 5⟩⟩, ⟨"Food", 2, ⟨2024, 3, 6⟩⟩, ⟨"Food", 3, ⟨2024, 3, 7⟩⟩]
        ⟨2024, 3⟩) ∧
      (∃ x y, AnyArith.Val.num (5 : ℚ) = AnyArith.Val.num x
        ∧ AnyArith.Val.num (5 : ℚ) = AnyArith.Val.num y) ∧
      List.Sublist
        [AnyArith.toChartEntry ("Pets", AnyArith.Val.num 5),
          AnyArith.toChartEntry ("Food", AnyArith.Val.num 5)]
        (AnyArith.chartData exactOps
          [⟨"Pets", 5, ⟨2024, 3, 5⟩⟩, ⟨"Food", 2, ⟨2024, 3, 6⟩⟩, ⟨"Food", 3, ⟨2024, 3, 7⟩⟩]
          ⟨2024, 3⟩) :=
  ⟨by decide, by decide, by decide, by decide!,
    equal_values_keep_first_occurrence_order exactOps
      [⟨"Pets", 5, ⟨2024, 3, 5⟩⟩, ⟨"Food", 2, ⟨2024, 3, 6⟩⟩, ⟨"Food", 3, ⟨2024, 3, 7⟩⟩] ⟨2024, 3⟩
      [] [⟨"Food", 2, ⟨2024, 3, 6⟩⟩, ⟨"Food", 3, ⟨2024, 3, 7⟩⟩] ⟨"Pets", 5, ⟨2024, 3, 5⟩⟩ "Food"
      (AnyArith.Val.num 5) (AnyArith.Val.num 5)
      (by decide) (by decide) (by decide) (by decide) (by decide) (by decide) (by decide!)
      (by decide!) (by decide!) (Or.inl rfl)⟩

end ExpenseTracker
